import Mathlib

/-!
# recreg-analytics-cron: the upload handler of `app.go`

A shallow embedding of `uploadHandler` (app.go, lines 49-101) together with the parts of
Go's `time` package the handler goes through (`Parse`, `Format`, `AddDate` for the layout
`recreg.ISO8601Date`), followed by the theorems about it.

Integers are `Int`; a Go `uint64` is an `Int` reduced modulo `2^64` (`u64`), a Go `int64`
is reduced to the signed range (`i64`).  Strings are lists of characters inside the time
package and `String` at the handler's surface.
-/

deriving instance DecidableEq for Except

namespace RecregCron

/-! ## Machine integers -/

/-- Conversion to `uint64`: reduction modulo `2^64`. -/
def u64 (x : Int) : Int := x % 18446744073709551616

/-- Conversion to `int64`: two's complement wrap-around into `[-2^63, 2^63)`. -/
def i64 (x : Int) : Int := (x + 9223372036854775808) % 18446744073709551616 - 9223372036854775808

/-! ## Package `time`: instants and the civil calendar -/

/-- The year of the absolute epoch of package `time` (`absoluteZeroYear`). -/
def absoluteZeroYear : Int := -292277022399

/-- The constant `unixToInternal + internalToAbsolute`: seconds from the absolute epoch to
the Unix epoch. -/
def unixToAbsolute : Int := 9223372028715321600

/-- The least Unix second of package `time` (`alpha`, the beginning of time). -/
def alpha : Int := -9223372036854775808

/-- The greatest Unix second of package `time` (the end of time; Go calls it `omega`). -/
def omegaSec : Int := 9223372036854775807

/-- A `*time.Location`: the offset (seconds east of UTC) of the zone in force before the
first transition, and the transitions in order of time, each with the Unix second at which
it happens and the offset in force from then on.  The transitions a zone's rule for the
years after its table generates count as listed.  `time.UTC` and the fixed zones have no
transition. -/
structure Location where
  first : Int
  tx : List (Int × Int)
deriving DecidableEq

/-- The location `time.UTC`. -/
def UTC : Location := ⟨0, []⟩

/-- The binary search of `(*Location).lookup`: the index of the last transition at or
before `sec` among `tx[lo..hi)`, and the time of the next one (`stop`, Go's `end`). -/
def searchTx (tx : List (Int × Int)) (sec : Int) : Nat → Nat → Nat → Int → Nat × Int
  | 0, lo, _, stop => (lo, stop)
  | fuel + 1, lo, hi, stop =>
    if hi - lo > 1 then
      let m := (lo + hi) / 2
      let lim := (tx.getD m (0, 0)).1
      if sec < lim then searchTx tx sec fuel lo m lim
      else searchTx tx sec fuel m hi stop
    else (lo, stop)

/-- Go's `(*Location).lookup`: the offset in force at Unix second `sec`, and the span
`[start, end)` of Unix seconds over which it is in force. -/
def Location.lookup (l : Location) (sec : Int) : Int × Int × Int :=
  match l.tx with
  | [] => (l.first, alpha, omegaSec)
  | tx0 :: _ =>
    if sec < tx0.1 then (l.first, alpha, tx0.1)
    else
      let r := searchTx l.tx sec l.tx.length 0 l.tx.length omegaSec
      let z := l.tx.getD r.1 (0, 0)
      (z.2, z.1, r.2)

/-- A `time.Time`: seconds since the Unix epoch, nanoseconds within the second, and the
location. -/
structure Time where
  sec : Int
  nsec : Int
  loc : Location
deriving DecidableEq

/-- The table `daysBefore`: days in a non-leap year before the start of each month, with a
final entry for the whole year. -/
def daysBefore : List Int := [0, 31, 59, 90, 120, 151, 181, 212, 243, 273, 304, 334, 365]

/-- Index into `daysBefore` (`daysBefore[i]`). -/
def daysBeforeAt (i : Int) : Int := daysBefore.getD i.toNat 0

/-- Go's `isLeap`: `year%4 == 0 && (year%100 != 0 || year%400 == 0)`, with Go's truncated
remainder. -/
def isLeap (year : Int) : Bool :=
  decide (Int.tmod year 4 = 0) && (decide (Int.tmod year 100 ≠ 0) || decide (Int.tmod year 400 = 0))

/-- Go's `daysIn`: the number of days of month `m` in `year`. -/
def daysIn (m : Int) (year : Int) : Int :=
  if m = 2 ∧ isLeap year = true then 29
  else daysBeforeAt m - daysBeforeAt (m - 1)

/-- Go's `norm`: carry `lo` into `hi` so that `0 ≤ lo < base`. -/
def norm (hi lo base : Int) : Int × Int :=
  let p : Int × Int :=
    if lo < 0 then
      let n := Int.tdiv (-lo - 1) base + 1
      (hi - n, lo + n * base)
    else (hi, lo)
  if p.2 ≥ base then
    let n := Int.tdiv p.2 base
    (p.1 + n, p.2 - n * base)
  else p

/-- Go's `daysSinceEpoch`: days from the absolute epoch to the start of `year`. -/
def daysSinceEpoch (year : Int) : Int :=
  let y := u64 (year - absoluteZeroYear)
  -- 400-year cycles
  let n := y / 400
  let y := y - 400 * n
  let d := 146097 * n
  -- 100-year cycles
  let n := y / 100
  let y := y - 100 * n
  let d := d + 36524 * n
  -- 4-year cycles
  let n := y / 4
  let y := y - 4 * n
  let d := d + 1461 * n
  -- remaining non-leap years
  let n := y
  d + 365 * n

/-- Go's `time.Date`: normalise the fields, count the days since the absolute epoch, and
convert the wall-clock seconds to Unix seconds with the offset the location has there: the
offset found at the wall-clock seconds taken as UTC, or, when the time so corrected falls
outside the span of that offset, the offset found at the corrected time. -/
def Date (year month day hour min sec nsec : Int) (loc : Location) : Time :=
  let m := month - 1
  let ym := norm year m 12
  let year := ym.1
  let month := ym.2 + 1
  let sn := norm sec nsec 1000000000
  let ms := norm min sn.1 60
  let hm := norm hour ms.1 60
  let dh := norm day hm.1 24
  let d := daysSinceEpoch year
  let d := d + daysBeforeAt (month - 1)
  let d := if isLeap year = true ∧ month ≥ 3 then d + 1 else d
  let d := d + (dh.1 - 1)
  let abs := u64 (d * 86400 + (dh.2 * 3600 + hm.2 * 60 + ms.2))
  let unix := i64 (abs - unixToAbsolute)
  let z := loc.lookup unix
  let unix :=
    if z.1 ≠ 0 then
      let utc := i64 (unix - z.1)
      let offset := if utc < z.2.1 ∨ utc ≥ z.2.2 then (loc.lookup utc).1 else z.1
      i64 (unix - offset)
    else unix
  ⟨unix, sn.2, loc⟩

/-- The offset `Date` settles on for the wall-clock seconds `unix` (counted as if in UTC),
as in the last step of `Date`. -/
def Location.dateOffset (l : Location) (unix : Int) : Int :=
  if (l.lookup unix).1 ≠ 0 then
    if i64 (unix - (l.lookup unix).1) < (l.lookup unix).2.1
        ∨ i64 (unix - (l.lookup unix).1) ≥ (l.lookup unix).2.2 then
      (l.lookup (i64 (unix - (l.lookup unix).1))).1
    else (l.lookup unix).1
  else 0

/-- Go's `Time.abs`: seconds since the absolute epoch, on the clock of the time's zone. -/
def Time.abs (t : Time) : Int := u64 (t.sec + (t.loc.lookup t.sec).1 + unixToAbsolute)

/-- The year part of Go's `absDate`: the year holding absolute day `d` and the day within
that year. -/
def absYear (d : Int) : Int × Int :=
  -- 400-year cycles
  let n := d / 146097
  let y := 400 * n
  let d := d - 146097 * n
  -- 100-year cycles; the last one has an extra leap year
  let n := d / 36524
  let n := n - n / 4
  let y := y + 100 * n
  let d := d - 36524 * n
  -- 4-year cycles
  let n := d / 1461
  let y := y + 4 * n
  let d := d - 1461 * n
  -- years within a 4-year cycle; the last year is a leap year
  let n := d / 365
  let n := n - n / 4
  let y := y + n
  let d := d - 365 * n
  (i64 y + absoluteZeroYear, d)

/-- The month part of Go's `absDate`: month and day of month for day `yday` of a year. -/
def absMonthDay (leap : Bool) (yday : Int) : Int × Int :=
  if leap = true ∧ yday = 31 + 29 - 1 then (2, 29)
  else
    let day := if leap = true ∧ yday > 31 + 29 - 1 then yday - 1 else yday
    let month := day / 31
    let monthEnd := daysBeforeAt (month + 1)
    if day ≥ monthEnd then (month + 1 + 1, day - monthEnd + 1)
    else (month + 1, day - daysBeforeAt month + 1)

/-- Go's `absDate` (with `full = true`): year, month and day of an absolute time. -/
def absDate (abs : Int) : Int × Int × Int :=
  let yd := absYear (abs / 86400)
  let md := absMonthDay (isLeap yd.1) yd.2
  (yd.1, md.1, md.2)

/-- Go's `absClock`: hour, minute and second of an absolute time. -/
def absClock (abs : Int) : Int × Int × Int :=
  let sec := abs % 86400
  let hour := sec / 3600
  let sec := sec - hour * 3600
  let min := sec / 60
  let sec := sec - min * 60
  (hour, min, sec)

/-- Go's `Time.Date`. -/
def Time.Date (t : Time) : Int × Int × Int := absDate t.abs

/-- Go's `Time.Clock`. -/
def Time.Clock (t : Time) : Int × Int × Int := absClock t.abs

/-- Go's `Time.AddDate`. -/
def Time.AddDate (t : Time) (years months days : Int) : Time :=
  let ymd := t.Date
  let hms := t.Clock
  RecregCron.Date (ymd.1 + years) (ymd.2.1 + months) (ymd.2.2 + days)
    hms.1 hms.2.1 hms.2.2 t.nsec t.loc

/-- The days of a year before day `day` of month `m`, as `Date` adds them up: the table
entry of the month, one more after February in a leap year, and `day - 1`. -/
def yearDay (leap : Bool) (m day : Int) : Int :=
  (if leap = true ∧ m ≥ 3 then daysBeforeAt (m - 1) + 1 else daysBeforeAt (m - 1)) + (day - 1)

/-- The days of month `m`, given whether the year is a leap year (`daysIn`). -/
def monthLen (leap : Bool) (m : Int) : Int :=
  if m = 2 ∧ leap = true then 29 else daysBeforeAt m - daysBeforeAt (m - 1)

/-- The times whose arithmetic does not wrap around: nanoseconds within the second, Unix
seconds within `int64`, and the wall clock of the location not before the absolute epoch
and within `int64` as well. -/
def Time.valid (t : Time) : Prop :=
  0 ≤ t.nsec ∧ t.nsec < 1000000000 ∧
  -9223372036854775808 ≤ t.sec ∧ t.sec < 9223372036854775808 ∧
  0 ≤ t.sec + (t.loc.lookup t.sec).1 + unixToAbsolute ∧
  t.sec + (t.loc.lookup t.sec).1 < 9223372036854775808

instance (t : Time) : Decidable t.valid := by
  unfold Time.valid
  infer_instance

/-- The date part of a time: midnight of its day, in its zone. -/
def Time.dateOnly (t : Time) : Time :=
  let ymd := t.Date
  RecregCron.Date ymd.1 ymd.2.1 ymd.2.2 0 0 0 0 t.loc

/-! ## Package `time`: formatting and parsing with the layout `recreg.ISO8601Date` -/

/-- Modelled from the spec: the constant `recreg.ISO8601Date` is declared in the registry
client package, outside `app.go`; the spec names the canonical date format `YYYY-MM-DD`,
which as a Go layout is the reference date written year-month-day. -/
def ISO8601Date : String := "2006-01-02"

/-- The digit loop of Go's `appendInt`: the decimal digits of `u`, assembled from the least
significant one into a buffer of 20 bytes (`fuel` counts the free places). -/
def decimal : Nat → Int → List Char → List Char
  | 0, _, buf => buf
  | fuel + 1, u, buf =>
    if u ≥ 10 then
      decimal fuel (u / 10) (Char.ofNat (48 + (u - u / 10 * 10)).toNat :: buf)
    else Char.ofNat (48 + u).toNat :: buf

/-- Go's `appendInt`: append the decimal form of `x` to `b`, with a sign when negative and
zero-padded to `width` digits. -/
def appendInt (b : List Char) (x : Int) (width : Nat) : List Char :=
  let u := if x < 0 then u64 (-x) else u64 x
  let b := if x < 0 then b ++ ['-'] else b
  let buf := decimal 20 u []
  b ++ List.replicate (width - buf.length) '0' ++ buf

/-- The text of a date (year, month, day) in the layout `ISO8601Date`, chunk by chunk:
`2006` (year, four digits), `-`, `01` (month, two digits), `-`, `02` (day, two digits). -/
def formatDate (ymd : Int × Int × Int) : String :=
  let b := appendInt [] ymd.1 4
  let b := b ++ ['-']
  let b := appendInt b ymd.2.1 2
  let b := b ++ ['-']
  let b := appendInt b ymd.2.2 2
  String.mk b

/-- Go's `Time.Format` with the layout `ISO8601Date`: of the time, the layout shows the
date in the time's location and nothing else. -/
def Time.Format (t : Time) : String := formatDate t.Date

/-- Go's `time.ParseError`. -/
structure ParseError where
  Layout : String
  Value : String
  LayoutElem : String
  ValueElem : String
  Message : String
deriving DecidableEq

/-- A hexadecimal digit (`lowerhex`). -/
def lowerhex (n : Nat) : Char :=
  if n < 10 then Char.ofNat (48 + n) else Char.ofNat (87 + n)

/-- Go's `quote` of package `time`: the text between double quotes, with `"` and `\`
escaped and every byte of a control or non-ASCII character written `\xhh`. -/
def quote (s : List Char) : List Char :=
  let body := s.flatMap fun c =>
    if c.toNat ≥ 128 ∨ c.toNat < 32 then
      (String.utf8EncodeChar c).flatMap fun byte =>
        [Char.ofNat 92, 'x', lowerhex (byte.toNat / 16), lowerhex (byte.toNat % 16)]
    else if c = Char.ofNat 34 ∨ c = Char.ofNat 92 then [Char.ofNat 92, c]
    else [c]
  [Char.ofNat 34] ++ body ++ [Char.ofNat 34]

/-- Go's `(*ParseError).Error`. -/
def ParseError.Error (e : ParseError) : String :=
  if e.Message = "" then
    "parsing time " ++ String.mk (quote e.Value.data) ++ " as " ++
      String.mk (quote e.Layout.data) ++ ": cannot parse " ++
      String.mk (quote e.ValueElem.data) ++ " as " ++ String.mk (quote e.LayoutElem.data)
  else
    "parsing time " ++ String.mk (quote e.Value.data) ++ e.Message

/-- Go's `isDigit`: whether `s[i]` exists and is a decimal digit. -/
def isDigit (s : List Char) (i : Nat) : Bool :=
  match s.get? i with
  | none => false
  | some c => decide (48 ≤ c.toNat) && decide (c.toNat ≤ 57)

/-- The value of a digit character (`c - '0'`). -/
def digitVal (c : Char) : Int := (c.toNat : Int) - 48

/-- Go's `leadingInt`: consume the leading digits of `s`; `none` on overflow. -/
def leadingInt : Int → List Char → Option (Int × List Char)
  | x, [] => some (x, [])
  | x, c :: s =>
    if c.toNat < 48 ∨ c.toNat > 57 then some (x, c :: s)
    else if x > 9223372036854775808 / 10 then none
    else
      let x := x * 10 + digitVal c
      if x > 9223372036854775808 then none else leadingInt x s

/-- Go's `atoi` of package `time`: an optional sign and digits, nothing after them; the
value is converted to `int` and negated there. -/
def atoi (s : List Char) : Option Int :=
  let neg := decide (s.head? = some '-')
  let s := if s.head? = some '-' ∨ s.head? = some '+' then s.tail else s
  match leadingInt 0 s with
  | none => none
  | some (q, rem) =>
    let x := i64 q
    if rem.length > 0 then none
    else if neg = true then some (i64 (-x)) else some x

/-- Go's `getnum`: a one- or two-digit number at the head of `s`; with `fixed`, two digits
are required. -/
def getnum (s : List Char) (fixed : Bool) : Option (Int × List Char) :=
  if isDigit s 0 = false then none
  else if isDigit s 1 = false then
    if fixed = true then none
    else some (digitVal (s.headD '0'), s.drop 1)
  else some (digitVal (s.headD '0') * 10 + digitVal ((s.drop 1).headD '0'), s.drop 2)

/-- Go's `skip` for a literal free of spaces (the only literal of the layout is `-`): the
value has to start with the literal; on a mismatch the rest of the value is returned as
the error. -/
def skip : List Char → List Char → Except (List Char) (List Char)
  | value, [] => .ok value
  | [], _ :: _ => .error []
  | v :: value, p :: lit =>
    if v ≠ p then .error (v :: value) else skip value lit

/-- Go's `time.Parse` with the layout `ISO8601Date`, chunk by chunk: `2006` (stdLongYear),
the literal `-`, `01` (stdZeroMonth), the literal `-`, `02` (stdZeroDay), then nothing may
remain; the day of the month is validated last, and the time is built in UTC. -/
def Parse (value : String) : Except ParseError Time :=
  let alayout := ISO8601Date
  let v0 := value.data
  -- chunk `2006`
  if v0.length < 4 ∨ isDigit v0 0 = false then
    .error ⟨alayout, value, "2006", String.mk v0, ""⟩
  else
    match atoi (v0.take 4) with
    | none => .error ⟨alayout, value, "2006", String.mk v0, ""⟩
    | some year =>
      -- literal `-`, chunk `01`
      match skip (v0.drop 4) ['-'] with
      | .error rest => .error ⟨alayout, value, "-", String.mk rest, ""⟩
      | .ok v1 =>
        match getnum v1 true with
        | none => .error ⟨alayout, value, "01", String.mk v1, ""⟩
        | some (month, v2) =>
          if month ≤ 0 ∨ 12 < month then
            .error ⟨alayout, value, "01", String.mk v2, ": month out of range"⟩
          else
            -- literal `-`, chunk `02`
            match skip v2 ['-'] with
            | .error rest => .error ⟨alayout, value, "-", String.mk rest, ""⟩
            | .ok v3 =>
              match getnum v3 true with
              | none => .error ⟨alayout, value, "02", String.mk v3, ""⟩
              | some (day, v4) =>
                if v4.length ≠ 0 then
                  .error ⟨alayout, value, "", String.mk v4,
                    ": extra text: " ++ String.mk (quote v4)⟩
                else if day < 1 ∨ day > daysIn month year then
                  .error ⟨alayout, value, "", String.mk v4, ": day out of range"⟩
                else
                  .ok (Date year month day 0 0 0 0 UTC)

/-! ## The canonical date format, in the words of the spec -/

/-- A decimal digit. -/
def isDig (c : Char) : Prop := 48 ≤ c.toNat ∧ c.toNat ≤ 57

instance (c : Char) : Decidable (isDig c) := by
  unfold isDig
  infer_instance

/-- The character of a digit. -/
def digitChar (d : Int) : Char := Char.ofNat (48 + d).toNat

/-- The Gregorian leap years: every fourth year, except the centuries not divisible by
400. -/
def leapYear (y : Int) : Bool :=
  decide (y % 4 = 0) && (decide (y % 100 ≠ 0) || decide (y % 400 = 0))

/-- The number of days of month `m` (1 to 12) of year `y`. -/
def monthDays (y m : Int) : Int :=
  if m = 2 then (if leapYear y = true then 29 else 28)
  else if m = 4 ∨ m = 6 ∨ m = 9 ∨ m = 11 then 30
  else 31

/-- A valid date in the canonical format `YYYY-MM-DD`: four digits, a dash, two digits, a
dash, two digits, naming a month from 01 to 12 and a day that this month has in this
year. -/
def isCanonicalDate (v : String) : Bool :=
  match v.data with
  | [c0, c1, c2, c3, s1, c5, c6, s2, c8, c9] =>
    let year := digitVal c0 * 1000 + digitVal c1 * 100 + digitVal c2 * 10 + digitVal c3
    let month := digitVal c5 * 10 + digitVal c6
    let day := digitVal c8 * 10 + digitVal c9
    decide (s1 = '-' ∧ s2 = '-') &&
    decide (isDig c0 ∧ isDig c1 ∧ isDig c2 ∧ isDig c3) &&
    decide (isDig c5 ∧ isDig c6 ∧ isDig c8 ∧ isDig c9) &&
    decide (1 ≤ month ∧ month ≤ 12 ∧ 1 ≤ day ∧ day ≤ monthDays year month)
  | _ => false

/-! ## The collaborators of the handler -/

/-- One entry of an object's access control list (`storage.ACLRule`). -/
structure ACLRule where
  Entity : String
  Role : String
deriving DecidableEq

/-- The ACL entity `storage.AllUsers`. -/
def AllUsers : String := "allUsers"

/-- The ACL role `storage.RoleReader`. -/
def RoleReader : String := "READER"

/-- A stored object: its bytes and the attributes fixed when it was written. -/
structure Object where
  data : String
  ContentType : String
  ACL : List ACLRule
deriving DecidableEq

/-- The objects of the bucket, by object name.  Committing a write to a name replaces
whatever was stored under it (`Store.put`). -/
abbrev Store := List (String × Object)

/-- The object stored under `key`, if any. -/
def Store.get (s : Store) (key : String) : Option Object :=
  (s.find? fun kv => kv.1 == key).map Prod.snd

/-- Commit `obj` under `key`: earlier objects of that name are dropped. -/
def Store.put (s : Store) (key : String) (obj : Object) : Store :=
  (key, obj) :: s.filter fun kv => !(kv.1 == key)

/-- The number of objects stored under `key`. -/
def Store.count (s : Store) (key : String) : Nat :=
  (s.filter fun kv => kv.1 == key).length

/-- A `storage.Writer`: the bucket and object name it was opened for, and the exported
fields the handler assigns before writing. -/
structure Writer where
  bucket : String
  name : String
  ACL : List ACLRule
  ContentType : String
deriving DecidableEq

/-- `storageClient.Bucket(bucket).Object(name).NewWriter(ctx)`. -/
def NewWriter (bucket name : String) : Writer := ⟨bucket, name, [], ""⟩

/-- What the handler does to the world, in order. -/
inductive Event where
  | now
  | listActions (t : Time)
  | newWriter (bucket name : String)
  | setACL (acl : List ACLRule)
  | setContentType (contentType : String)
  | write (data : String)
  | close
deriving DecidableEq

/-- Everything the handler takes from outside: the clock (`time.Now()`), the bucket name
(the package variable `bucketName`), the registry client (`ListActions`, an error carries
its text), `json.Marshal`, and the outcome of streaming into and of closing the object
writer (`none` is success, `some e` an error with text `e`). -/
structure Env (Action : Type) where
  now : Time
  bucketName : String
  ListActions : Time → Except String (List Action)
  Marshal : List Action → Except String String
  Copy : Store → Writer → String → Option String
  Close : Store → Writer → String → Option String

/-- The part of `*http.Request` the handler reads: the method and the parsed query. -/
structure Request where
  Method : String
  Query : List (String × String)
deriving DecidableEq

/-- `r.URL.Query().Get(key)`: the first value of `key`, or the empty string. -/
def Request.Get (r : Request) (key : String) : String :=
  match r.Query.find? fun kv => kv.1 == key with
  | some kv => kv.2
  | none => ""

/-- What was written to the `http.ResponseWriter`: status code and body. -/
structure Response where
  status : Nat
  body : String
deriving DecidableEq

/-- Go's `http.Error`: the status code and the message followed by a newline. -/
def httpError (msg : String) (code : Nat) : Response := ⟨code, msg ++ "\n"⟩

/-- `http.StatusMethodNotAllowed`. -/
def StatusMethodNotAllowed : Nat := 405

/-- `http.StatusBadRequest`. -/
def StatusBadRequest : Nat := 400

/-- `http.StatusInternalServerError`. -/
def StatusInternalServerError : Nat := 500

/-- `http.StatusOK`, the status of a response written without `WriteHeader`. -/
def StatusOK : Nat := 200

/-- The result of one run of the handler: the response, the events in order, and the
store afterwards. -/
structure Outcome where
  resp : Response
  trace : List Event
  store : Store
deriving DecidableEq

/-! ## `uploadHandler` -/

/-- Lines 55-64 of `uploadHandler`: `t` starts as yesterday on the clock, and a non-empty
`date` parameter replaces it by its parse, or fails. -/
def reportDate (now : Time) (v : String) : Except ParseError Time :=
  let t := now.AddDate 0 0 (-1)
  if v ≠ "" then
    match Parse v with
    | .error err => .error err
    | .ok t => .ok t
  else .ok t

/-- The handler `uploadHandler` of `app.go`. -/
def uploadHandler {Action : Type} (env : Env Action) (store : Store) (r : Request) : Outcome :=
  if r.Method ≠ "PUT" then
    ⟨httpError "" StatusMethodNotAllowed, [], store⟩
  else
    match reportDate env.now (r.Get "date") with
    | .error err =>
      ⟨httpError ("could not parse date: " ++ err.Error) StatusBadRequest, [.now], store⟩
    | .ok t =>
      match env.ListActions t with
      | .error err =>
        ⟨httpError ("could not get actions: " ++ err) StatusInternalServerError,
          [.now, .listActions t], store⟩
      | .ok actions =>
        match env.Marshal actions with
        | .error err =>
          ⟨httpError ("could not marshal actions: " ++ err) StatusInternalServerError,
            [.now, .listActions t], store⟩
        | .ok b =>
          let fileName := t.Format ++ ".json"
          let sw := NewWriter env.bucketName fileName
          let sw := { sw with ACL := [⟨AllUsers, RoleReader⟩] }
          let sw := { sw with ContentType := "application/json" }
          let opened : List Event :=
            [.now, .listActions t, .newWriter env.bucketName fileName,
              .setACL [⟨AllUsers, RoleReader⟩], .setContentType "application/json", .write b]
          match env.Copy store sw b with
          | some err =>
            ⟨httpError ("could not write file: " ++ err) StatusInternalServerError,
              opened, store⟩
          | none =>
            match env.Close store sw b with
            | some err =>
              ⟨httpError ("could not put file: " ++ err) StatusInternalServerError,
                opened ++ [.close], store⟩
            | none =>
              ⟨⟨StatusOK, "https://storage.googleapis.com/" ++ env.bucketName ++ "/" ++ fileName⟩,
                opened ++ [.close], store.put fileName ⟨b, sw.ContentType, sw.ACL⟩⟩

/-! ## Concrete runs

The clock of the examples stands at 2023-06-02 15:30:00 UTC (Unix second 1685719800); the
day before starts at Unix second 1685577600. -/

/-- The body the example registry serialises to: two actions. -/
def exampleBody : String := "[\x7b\"id\":1\x7d,\x7b\"id\":2\x7d]"

/-- A run in which every collaborator succeeds. -/
def exampleEnv : Env Nat where
  now := ⟨1685719800, 0, UTC⟩
  bucketName := "reports"
  ListActions := fun _ => .ok [1, 2]
  Marshal := fun _ => .ok exampleBody
  Copy := fun _ _ _ => none
  Close := fun _ _ _ => none

/-- A later run for which the registry has a third action. -/
def laterEnv : Env Nat where
  now := ⟨1685806200, 0, UTC⟩
  bucketName := "reports"
  ListActions := fun _ => .ok [1, 2, 3]
  Marshal := fun _ => .ok "[1,2,3]"
  Copy := fun _ _ _ => none
  Close := fun _ _ _ => none

/-- A run in which the registry cannot be reached. -/
def registryDownEnv : Env Nat :=
  { exampleEnv with ListActions := fun _ => .error "connection refused" }

/-- A run in which streaming into the object fails. -/
def writeFailsEnv : Env Nat :=
  { exampleEnv with Copy := fun _ _ _ => some "broken pipe" }

/-- A run in which the object cannot be committed. -/
def closeFailsEnv : Env Nat :=
  { exampleEnv with Close := fun _ _ _ => some "quota exceeded" }

/-- A `PUT` for the first of June 2023. -/
def juneRequest : Request := ⟨"PUT", [("date", "2023-06-01")]⟩

/-- The store before the example runs: one older report. -/
def exampleStore : Store :=
  [("2023-05-31.json", ⟨"[]", "application/json", [⟨AllUsers, RoleReader⟩]⟩)]

/-! ## The calendar: years -/

theorem isLeap_iff (year : Int) :
    isLeap year = true ↔ (year % 4 = 0 ∧ (year % 100 ≠ 0 ∨ year % 400 = 0)) := by
  have h (a n : Int) : Int.tmod a n = 0 ↔ a % n = 0 := by
    rw [← Int.dvd_iff_tmod_eq_zero, Int.dvd_iff_emod_eq_zero]
  simp [isLeap, h]

theorem ediv_of_eq (x n q r : Int) (hn : 0 < n) (h : x = n * q + r) (h0 : 0 ≤ r) (h1 : r < n) :
    x / n = q := by
  have := (Int.ediv_emod_unique (a := x) (r := r) (q := q) hn).mpr ⟨by omega, h0, h1⟩
  exact this.1

/-- `absYear` on a day written out by cycles: `a` cycles of 400 years, `b` of 100, `c` of
4, `e` years and `yd` days; day 365 exists only in the last year of a 4-year cycle that is
not cut short by a century. -/
theorem absYear_cycle (a b c e yd : Int) (hb0 : 0 ≤ b) (hb : b < 4) (hc0 : 0 ≤ c)
    (hc : c < 25) (he0 : 0 ≤ e) (he : e < 4) (h0 : 0 ≤ yd)
    (h1 : yd < 365 ∨ (yd = 365 ∧ e = 3 ∧ (c < 24 ∨ b = 3))) :
    absYear (146097 * a + 36524 * b + 1461 * c + 365 * e + yd)
      = (i64 (400 * a + 100 * b + 4 * c + e) + absoluteZeroYear, yd) := by
  have e1 : (146097 * a + 36524 * b + 1461 * c + 365 * e + yd) / 146097 = a :=
    ediv_of_eq _ 146097 a (36524 * b + 1461 * c + 365 * e + yd) (by omega) (by omega)
      (by omega) (by omega)
  have e2 : (36524 * b + 1461 * c + 365 * e + yd) / 36524
      - (36524 * b + 1461 * c + 365 * e + yd) / 36524 / 4 = b := by
    by_cases hx : 1461 * c + 365 * e + yd < 36524
    · have := ediv_of_eq (36524 * b + 1461 * c + 365 * e + yd) 36524 b (1461 * c + 365 * e + yd)
        (by omega) (by omega) (by omega) hx
      rw [this]; omega
    · have := ediv_of_eq (36524 * b + 1461 * c + 365 * e + yd) 36524 4 0
        (by omega) (by omega) (by omega) (by omega)
      rw [this]; omega
  have e3 : (1461 * c + 365 * e + yd) / 1461 = c :=
    ediv_of_eq _ 1461 c (365 * e + yd) (by omega) (by omega) (by omega) (by omega)
  have e4 : (365 * e + yd) / 365 - (365 * e + yd) / 365 / 4 = e := by
    by_cases hx : yd < 365
    · have := ediv_of_eq (365 * e + yd) 365 e yd (by omega) (by omega) (by omega) hx
      rw [this]; omega
    · have := ediv_of_eq (365 * e + yd) 365 4 0 (by omega) (by omega) (by omega) (by omega)
      rw [this]; omega
  have s1 : 146097 * a + 36524 * b + 1461 * c + 365 * e + yd - 146097 * a
      = 36524 * b + 1461 * c + 365 * e + yd := by omega
  have s2 : 36524 * b + 1461 * c + 365 * e + yd - 36524 * b = 1461 * c + 365 * e + yd := by omega
  have s3 : 1461 * c + 365 * e + yd - 1461 * c = 365 * e + yd := by omega
  have s4 : 365 * e + yd - 365 * e = yd := by omega
  simp only [absYear, e1, s1, e2, s2, e3, s3, e4, s4]

theorem daysSinceEpoch_cycle (a b c e : Int) (ha : 0 ≤ a) (hb0 : 0 ≤ b) (hb : b < 4)
    (hc0 : 0 ≤ c) (hc : c < 25) (he0 : 0 ≤ e) (he : e < 4)
    (hy : 400 * a + 100 * b + 4 * c + e < 18446744073709551616) :
    daysSinceEpoch (400 * a + 100 * b + 4 * c + e + absoluteZeroYear)
      = 146097 * a + 36524 * b + 1461 * c + 365 * e := by
  have e0 : u64 (400 * a + 100 * b + 4 * c + e + absoluteZeroYear - absoluteZeroYear)
      = 400 * a + 100 * b + 4 * c + e := by
    simp only [u64]; omega
  have e1 : (400 * a + 100 * b + 4 * c + e) / 400 = a :=
    ediv_of_eq _ 400 a (100 * b + 4 * c + e) (by omega) (by omega) (by omega) (by omega)
  have s1 : 400 * a + 100 * b + 4 * c + e - 400 * a = 100 * b + 4 * c + e := by omega
  have e2 : (100 * b + 4 * c + e) / 100 = b :=
    ediv_of_eq _ 100 b (4 * c + e) (by omega) (by omega) (by omega) (by omega)
  have s2 : 100 * b + 4 * c + e - 100 * b = 4 * c + e := by omega
  have e3 : (4 * c + e) / 4 = c :=
    ediv_of_eq _ 4 c e (by omega) (by omega) (by omega) (by omega)
  have s3 : 4 * c + e - 4 * c = e := by omega
  simp only [daysSinceEpoch, e0, e1, s1, e2, s2, e3, s3]

theorem isLeap_cycle (a b c e : Int) (hb0 : 0 ≤ b) (hb : b < 4)
    (hc0 : 0 ≤ c) (hc : c < 25) (he0 : 0 ≤ e) (he : e < 4) :
    isLeap (400 * a + 100 * b + 4 * c + e + absoluteZeroYear) = true
      ↔ (e = 3 ∧ (c < 24 ∨ b = 3)) := by
  rw [isLeap_iff]; simp only [absoluteZeroYear]; omega

theorem year_cycle (y : Int) (h0 : 0 ≤ y) :
    ∃ a b c e : Int, 0 ≤ a ∧ 0 ≤ b ∧ b < 4 ∧ 0 ≤ c ∧ c < 25 ∧ 0 ≤ e ∧ e < 4 ∧
      y = 400 * a + 100 * b + 4 * c + e :=
  ⟨y / 400, y % 400 / 100, y % 100 / 4, y % 4, by omega, by omega, by omega, by omega,
    by omega, by omega, by omega, by omega⟩

theorem day_cycle (d : Int) (h0 : 0 ≤ d) :
    ∃ a b c e yd : Int, 0 ≤ a ∧ 0 ≤ b ∧ b < 4 ∧ 0 ≤ c ∧ c < 25 ∧ 0 ≤ e ∧ e < 4 ∧ 0 ≤ yd ∧
      (yd < 365 ∨ (yd = 365 ∧ e = 3 ∧ (c < 24 ∨ b = 3))) ∧
      d = 146097 * a + 36524 * b + 1461 * c + 365 * e + yd ∧ a ≤ d / 146097 := by
  obtain ⟨b, hb0, hb, hr0, hr⟩ : ∃ b : Int, 0 ≤ b ∧ b < 4 ∧ 0 ≤ d % 146097 - 36524 * b ∧
      (d % 146097 - 36524 * b < 36524 ∨ (b = 3 ∧ d % 146097 - 36524 * b = 36524)) := by
    by_cases h : d % 146097 = 146096
    · exact ⟨3, by omega, by omega, by omega, by omega⟩
    · exact ⟨d % 146097 / 36524, by omega, by omega, by omega, by omega⟩
  obtain ⟨e, he0, he, hs0, hs⟩ : ∃ e : Int, 0 ≤ e ∧ e < 4 ∧
      0 ≤ (d % 146097 - 36524 * b) % 1461 - 365 * e ∧
      ((d % 146097 - 36524 * b) % 1461 - 365 * e < 365 ∨
        (e = 3 ∧ (d % 146097 - 36524 * b) % 1461 - 365 * e = 365)) := by
    by_cases h : (d % 146097 - 36524 * b) % 1461 = 1460
    · exact ⟨3, by omega, by omega, by omega, by omega⟩
    · exact ⟨(d % 146097 - 36524 * b) % 1461 / 365, by omega, by omega, by omega, by omega⟩
  by_cases hb3 : b = 3 ∧ d % 146097 - 36524 * b = 36524
  · refine ⟨d / 146097, 3, 24, 3, 365, ?_, ?_, ?_, ?_, ?_, ?_, ?_, ?_, ?_, ?_, ?_⟩ <;> omega
  · refine ⟨d / 146097, b, (d % 146097 - 36524 * b) / 1461, e,
      (d % 146097 - 36524 * b) % 1461 - 365 * e, ?_, ?_, ?_, ?_, ?_, ?_, ?_, ?_, ?_, ?_, ?_⟩ <;>
      omega

/-! ## The calendar: months -/

set_option maxRecDepth 100000 in
theorem absMonthDay_table : ∀ leap : Bool, ∀ n : Nat, n < 366 →
    ((n : Int) < 365 ∨ leap = true) →
      1 ≤ (absMonthDay leap n).1 ∧ (absMonthDay leap n).1 ≤ 12 ∧
      1 ≤ (absMonthDay leap n).2 ∧
      (absMonthDay leap n).2 ≤ monthLen leap (absMonthDay leap n).1 ∧
      yearDay leap (absMonthDay leap n).1 (absMonthDay leap n).2 = n := by
  decide

set_option maxRecDepth 100000 in
set_option synthInstance.maxSize 2048 in
set_option synthInstance.maxHeartbeats 400000 in
theorem yearDay_table : ∀ leap : Bool, ∀ m : Nat, m < 13 → ∀ day : Nat, day < 32 →
    (1 ≤ m ∧ 1 ≤ day ∧ (day : Int) ≤ monthLen leap m) →
      absMonthDay leap (yearDay leap m day) = ((m : Int), (day : Int)) ∧
      0 ≤ yearDay leap m day ∧
      (yearDay leap m day < 365 ∨ (leap = true ∧ yearDay leap m day = 365)) := by
  decide


/-! ## `Date` and `absDate` are inverse to each other -/

theorem norm_id (hi lo base : Int) (h0 : 0 ≤ lo) (h1 : lo < base) : norm hi lo base = (hi, lo) := by
  simp only [norm, if_neg (show ¬ lo < 0 by omega), if_neg (show ¬ lo ≥ base by omega)]

theorem i64_i64 (x : Int) : i64 (i64 x) = i64 x := by
  simp only [i64]; omega

/-- With month, clock and nanoseconds in range, `Date` is the day count times 86400 plus
the seconds of the day, shifted to the Unix epoch and corrected by the offset `Date`
settles on. -/
theorem Date_eq (year month day hour min sec nsec : Int) (loc : Location)
    (hm0 : 1 ≤ month) (hm1 : month ≤ 12) (hh0 : 0 ≤ hour) (hh1 : hour < 24)
    (hi0 : 0 ≤ min) (hi1 : min < 60) (hs0 : 0 ≤ sec) (hs1 : sec < 60)
    (hn0 : 0 ≤ nsec) (hn1 : nsec < 1000000000) :
    Date year month day hour min sec nsec loc =
      ⟨i64 (i64 (u64 ((daysSinceEpoch year + yearDay (isLeap year) month day) * 86400
            + (hour * 3600 + min * 60 + sec)) - unixToAbsolute)
          - loc.dateOffset (i64 (u64 ((daysSinceEpoch year
              + yearDay (isLeap year) month day) * 86400
            + (hour * 3600 + min * 60 + sec)) - unixToAbsolute))), nsec, loc⟩ := by
  have e1 : norm year (month - 1) 12 = (year, month - 1) := norm_id _ _ _ (by omega) (by omega)
  have e2 : norm sec nsec 1000000000 = (sec, nsec) := norm_id _ _ _ hn0 hn1
  have e3 : norm min sec 60 = (min, sec) := norm_id _ _ _ hs0 hs1
  have e4 : norm hour min 60 = (hour, min) := norm_id _ _ _ hi0 hi1
  have e5 : norm day hour 24 = (day, hour) := norm_id _ _ _ hh0 hh1
  have e6 : month - 1 + 1 = month := by omega
  have key : ∀ w : Int,
      (if (loc.lookup (i64 w)).1 ≠ 0 then
        i64 (i64 w - (if i64 (i64 w - (loc.lookup (i64 w)).1) < (loc.lookup (i64 w)).2.1
              ∨ i64 (i64 w - (loc.lookup (i64 w)).1) ≥ (loc.lookup (i64 w)).2.2 then
            (loc.lookup (i64 (i64 w - (loc.lookup (i64 w)).1))).1
          else (loc.lookup (i64 w)).1))
      else i64 w) = i64 (i64 w - loc.dateOffset (i64 w)) := by
    intro w
    by_cases hz : (loc.lookup (i64 w)).1 ≠ 0
    · simp only [Location.dateOffset, if_pos hz]
    · simp only [Location.dateOffset, if_neg hz, Int.sub_zero, i64_i64]
  by_cases h : isLeap year = true ∧ month ≥ 3
  · simp only [Date, e1, e2, e3, e4, e5, e6, yearDay, if_pos h, Int.add_assoc, key]
  · simp only [Date, e1, e2, e3, e4, e5, e6, yearDay, if_neg h, Int.add_assoc, key]

theorem Location.lookup_of_tx_nil (l : Location) (h : l.tx = []) (x : Int) :
    l.lookup x = (l.first, alpha, omegaSec) := by
  simp only [Location.lookup, h]

/-- In a location without transitions `Date` settles on its one offset. -/
theorem Location.dateOffset_of_tx_nil (l : Location) (h : l.tx = []) (x : Int) :
    l.dateOffset x = l.first := by
  simp only [Location.dateOffset, Location.lookup_of_tx_nil l h]
  by_cases hz : l.first = 0
  · simp [hz]
  · simp [hz]

theorem Time.abs_mk_i64 (x nsec : Int) (l : Location) (h : l.tx = []) :
    (Time.mk (i64 (i64 (u64 x - unixToAbsolute) - l.first)) nsec l).abs = u64 x := by
  simp only [Time.abs, Location.lookup_of_tx_nil l h, u64, i64, unixToAbsolute]
  omega

/-- The day count of `absYear`, put back together. -/
theorem daysSinceEpoch_absYear (d : Int) (h0 : 0 ≤ d) (h1 : d < 213503982334602) :
    daysSinceEpoch (absYear d).1 + (absYear d).2 = d ∧ 0 ≤ (absYear d).2 ∧
      ((absYear d).2 < 365 ∨ ((absYear d).2 = 365 ∧ isLeap (absYear d).1 = true)) ∧
      absoluteZeroYear ≤ (absYear d).1 ∧
      (absYear d).1 < 9223372036854775808 + absoluteZeroYear := by
  obtain ⟨a, b, c, e, yd, ha, hb0, hb, hc0, hc, he0, he, hy0, hy, rfl, hle⟩ := day_cycle d h0
  have hw : i64 (400 * a + 100 * b + 4 * c + e) = 400 * a + 100 * b + 4 * c + e := by
    simp only [i64]; omega
  rw [absYear_cycle a b c e yd hb0 hb hc0 hc he0 he hy0 hy, hw]
  simp only
  rw [daysSinceEpoch_cycle a b c e ha hb0 hb hc0 hc he0 he (by omega)]
  refine ⟨rfl, hy0, ?_, by omega, by omega⟩
  rcases hy with hy | ⟨hy, hl⟩
  · exact Or.inl hy
  · exact Or.inr ⟨hy, (isLeap_cycle a b c e hb0 hb hc0 hc he0 he).mpr hl⟩

/-- The year and day of year of `absYear`, read back from a day count. -/
theorem absYear_daysSinceEpoch (year yd : Int)
    (hlo : absoluteZeroYear ≤ year) (hhi : year < 9223372036854775808 + absoluteZeroYear)
    (h0 : 0 ≤ yd) (h1 : yd < 365 ∨ (yd = 365 ∧ isLeap year = true)) :
    absYear (daysSinceEpoch year + yd) = (year, yd) := by
  obtain ⟨a, b, c, e, ha, hb0, hb, hc0, hc, he0, he, hy⟩ :=
    year_cycle (year - absoluteZeroYear) (by omega)
  have hyear : year = 400 * a + 100 * b + 4 * c + e + absoluteZeroYear := by omega
  have hw : i64 (400 * a + 100 * b + 4 * c + e) = 400 * a + 100 * b + 4 * c + e := by
    simp only [i64]; simp only [absoluteZeroYear] at hhi hyear; omega
  subst hyear
  rw [daysSinceEpoch_cycle a b c e ha hb0 hb hc0 hc he0 he
    (by simp only [absoluteZeroYear] at hhi; omega)]
  rw [absYear_cycle a b c e yd hb0 hb hc0 hc he0 he h0, hw]
  rcases h1 with h1 | ⟨h1, hl⟩
  · exact Or.inl h1
  · exact Or.inr ⟨h1, (isLeap_cycle a b c e hb0 hb hc0 hc he0 he).mp hl⟩

theorem absClock_eq (abs : Int) :
    0 ≤ (absClock abs).1 ∧ (absClock abs).1 < 24 ∧
    0 ≤ (absClock abs).2.1 ∧ (absClock abs).2.1 < 60 ∧
    0 ≤ (absClock abs).2.2 ∧ (absClock abs).2.2 < 60 ∧
    abs / 86400 * 86400 + ((absClock abs).1 * 3600 + (absClock abs).2.1 * 60 + (absClock abs).2.2)
      = abs := by
  simp only [absClock]
  omega

theorem absClock_of (d hour min sec : Int) (hh0 : 0 ≤ hour) (hh1 : hour < 24)
    (hi0 : 0 ≤ min) (hi1 : min < 60) (hs0 : 0 ≤ sec) (hs1 : sec < 60) :
    absClock (d * 86400 + (hour * 3600 + min * 60 + sec)) = (hour, min, sec) ∧
      (d * 86400 + (hour * 3600 + min * 60 + sec)) / 86400 = d := by
  have e1 : (d * 86400 + (hour * 3600 + min * 60 + sec)) % 86400
      = hour * 3600 + min * 60 + sec := by omega
  have e2 : (hour * 3600 + min * 60 + sec) / 3600 = hour := by omega
  have e3 : (hour * 3600 + min * 60 + sec - hour * 3600) / 60 = min := by omega
  refine ⟨?_, by omega⟩
  simp only [absClock, e1, e2, e3]
  refine Prod.ext rfl (Prod.ext rfl ?_)
  simp only
  omega

/-- From an absolute time to its date and back: the day count is recovered, and month and
day are in range. -/
theorem absDate_spec (abs : Int) (h0 : 0 ≤ abs) (h1 : abs < 18446744073709551616) :
    1 ≤ (absDate abs).2.1 ∧ (absDate abs).2.1 ≤ 12 ∧ 1 ≤ (absDate abs).2.2 ∧
    (absDate abs).2.2 ≤ monthLen (isLeap (absDate abs).1) (absDate abs).2.1 ∧
    daysSinceEpoch (absDate abs).1
      + yearDay (isLeap (absDate abs).1) (absDate abs).2.1 (absDate abs).2.2 = abs / 86400 ∧
    absoluteZeroYear ≤ (absDate abs).1 ∧
    (absDate abs).1 < 9223372036854775808 + absoluteZeroYear := by
  obtain ⟨hd, hy0, hy, hlo, hhi⟩ := daysSinceEpoch_absYear (abs / 86400) (by omega) (by omega)
  simp only [absDate]
  generalize absYear (abs / 86400) = p at hd hy0 hy hlo hhi
  obtain ⟨year, yd⟩ := p
  simp only at hd hy0 hy hlo hhi ⊢
  obtain ⟨n, rfl⟩ := Int.eq_ofNat_of_zero_le hy0
  have hn : n < 366 := by omega
  have hl : ((n : Int) < 365 ∨ isLeap year = true) := by
    rcases hy with h | ⟨_, h⟩
    · exact Or.inl h
    · exact Or.inr h
  obtain ⟨t1, t2, t3, t4, t5⟩ := absMonthDay_table (isLeap year) n hn hl
  refine ⟨t1, t2, t3, t4, ?_, hlo, hhi⟩
  rw [t5]; exact hd

/-- From a date to its absolute day and back. -/
theorem absDate_of (year month day : Int)
    (hlo : absoluteZeroYear ≤ year) (hhi : year < 9223372036854775808 + absoluteZeroYear)
    (hm0 : 1 ≤ month) (hm1 : month ≤ 12) (hd0 : 1 ≤ day)
    (hd1 : day ≤ monthLen (isLeap year) month) (abs : Int)
    (habs : abs / 86400 = daysSinceEpoch year + yearDay (isLeap year) month day) :
    absDate abs = (year, month, day) := by
  obtain ⟨m, rfl⟩ := Int.eq_ofNat_of_zero_le (show 0 ≤ month by omega)
  obtain ⟨d, rfl⟩ := Int.eq_ofNat_of_zero_le (show 0 ≤ day by omega)
  have hd31 : d < 32 := by
    have : monthLen (isLeap year) m ≤ 31 := by
      have hm : m < 13 := by omega
      have : ∀ leap : Bool, ∀ k : Nat, k < 13 → monthLen leap k ≤ 31 := by decide
      exact this _ m hm
    omega
  obtain ⟨t1, t2, t3⟩ := yearDay_table (isLeap year) m (by omega) d hd31
    ⟨by omega, by omega, hd1⟩
  have t3b : yearDay (isLeap year) m d < 365 ∨
      (yearDay (isLeap year) m d = 365 ∧ isLeap year = true) := by
    rcases t3 with h | ⟨h, h2⟩
    · exact Or.inl h
    · exact Or.inr ⟨h2, h⟩
  simp only [absDate, habs, absYear_daysSinceEpoch year _ hlo hhi t2 t3b, t1]

/-! ## Yesterday, and the date part of a time -/

theorem Time.abs_of_valid (t : Time) (h : t.valid) :
    t.abs = t.sec + (t.loc.lookup t.sec).1 + unixToAbsolute ∧ 0 ≤ t.abs ∧
      t.abs < 18446744073709551616 := by
  simp only [Time.valid, unixToAbsolute] at h
  simp only [Time.abs, u64, unixToAbsolute]
  omega

/-- `AddDate(0, 0, -1)` in any location: the wall clock of the time, 86400 seconds back,
converted to Unix seconds with the offset `Date` settles on for it. -/
theorem Time.AddDate_yesterday_wall (t : Time) (h : t.valid) (hday : 86400 ≤ t.abs) :
    t.AddDate 0 0 (-1)
      = ⟨i64 (t.sec + (t.loc.lookup t.sec).1 - 86400
          - t.loc.dateOffset (t.sec + (t.loc.lookup t.sec).1 - 86400)), t.nsec, t.loc⟩ := by
  obtain ⟨ha, ha0, ha1⟩ := Time.abs_of_valid t h
  obtain ⟨m0, m1, _, _, hd, _, _⟩ := absDate_spec t.abs ha0 ha1
  obtain ⟨c0, c1, c2, c3, c4, c5, hc⟩ := absClock_eq t.abs
  simp only [Time.AddDate, Time.Date, Time.Clock, Int.add_zero]
  simp only [Time.valid] at h
  rw [Date_eq _ _ _ _ _ _ _ _ m0 m1 c0 c1 c2 c3 c4 c5 h.1 h.2.1]
  have hyd : yearDay (isLeap (absDate t.abs).1) (absDate t.abs).2.1 ((absDate t.abs).2.2 + -1)
      = yearDay (isLeap (absDate t.abs).1) (absDate t.abs).2.1 (absDate t.abs).2.2 - 1 := by
    simp only [yearDay]; omega
  have hx : (daysSinceEpoch (absDate t.abs).1
        + yearDay (isLeap (absDate t.abs).1) (absDate t.abs).2.1 ((absDate t.abs).2.2 + -1)) * 86400
        + ((absClock t.abs).1 * 3600 + (absClock t.abs).2.1 * 60 + (absClock t.abs).2.2)
      = t.abs - 86400 := by
    rw [hyd]
    have : daysSinceEpoch (absDate t.abs).1
        + (yearDay (isLeap (absDate t.abs).1) (absDate t.abs).2.1 (absDate t.abs).2.2 - 1)
        = t.abs / 86400 - 1 := by omega
    rw [this]; omega
  have hw : i64 (u64 (t.abs - 86400) - unixToAbsolute)
      = t.sec + (t.loc.lookup t.sec).1 - 86400 := by
    simp only [unixToAbsolute] at h ha ⊢
    simp only [u64, i64]
    omega
  rw [hx, hw]

/-- `AddDate(0, 0, -1)` in a location without transitions is the same time of day one day
earlier: 86400 seconds back. -/
theorem Time.AddDate_yesterday (t : Time) (hl : t.loc.tx = []) (h : t.valid)
    (hy : (Time.mk (t.sec - 86400) t.nsec t.loc).valid) :
    t.AddDate 0 0 (-1) = ⟨t.sec - 86400, t.nsec, t.loc⟩ := by
  have hday : 86400 ≤ t.abs := by
    obtain ⟨ha, _, _⟩ := Time.abs_of_valid t h
    simp only [Time.valid, Location.lookup_of_tx_nil t.loc hl] at hy
    simp only [Location.lookup_of_tx_nil t.loc hl] at ha
    omega
  rw [Time.AddDate_yesterday_wall t h hday, Location.dateOffset_of_tx_nil t.loc hl,
    Location.lookup_of_tx_nil t.loc hl]
  simp only [Time.valid] at hy
  simp only [i64]
  congr 1
  omega

theorem Time.dateOnly_spec (t : Time) (hl : t.loc.tx = []) (h : t.valid) :
    t.dateOnly.Date = t.Date ∧ t.dateOnly.Clock = (0, 0, 0) := by
  obtain ⟨ha, ha0, ha1⟩ := Time.abs_of_valid t h
  obtain ⟨m0, m1, d0, d1, hd, hlo, hhi⟩ := absDate_spec t.abs ha0 ha1
  obtain ⟨hc, hq⟩ := absClock_of (t.abs / 86400) 0 0 0 (by omega) (by omega) (by omega)
    (by omega) (by omega) (by omega)
  have hx : u64 ((daysSinceEpoch (absDate t.abs).1
        + yearDay (isLeap (absDate t.abs).1) (absDate t.abs).2.1 (absDate t.abs).2.2) * 86400
        + (0 * 3600 + 0 * 60 + 0)) = t.abs / 86400 * 86400 + (0 * 3600 + 0 * 60 + 0) := by
    rw [hd]; simp only [u64]; omega
  simp only [Time.dateOnly, Time.Date, Time.Clock]
  rw [Date_eq _ _ _ _ _ _ _ _ m0 m1 (by omega) (by omega) (by omega) (by omega) (by omega)
    (by omega) (by omega) (by omega), Location.dateOffset_of_tx_nil t.loc hl,
    Time.abs_mk_i64 _ _ _ hl, hx]
  refine ⟨?_, hc⟩
  exact absDate_of _ _ _ hlo hhi m0 m1 d0 d1 _ (by rw [hq, hd])

theorem Time.Format_congr (t u : Time) (h : t.Date = u.Date) : t.Format = u.Format := by
  simp only [Time.Format, h]


/-! ## Digits -/

theorem decimal_lt_10 (fuel : Nat) (u : Int) (buf : List Char) (h : u < 10) :
    decimal (fuel + 1) u buf = digitChar u :: buf := by
  simp only [decimal, if_neg (show ¬ u ≥ 10 by omega), digitChar]

theorem decimal_ge_10 (fuel : Nat) (u : Int) (buf : List Char) (h : 10 ≤ u) :
    decimal (fuel + 1) u buf = decimal fuel (u / 10) (digitChar (u % 10) :: buf) := by
  have : u - u / 10 * 10 = u % 10 := by omega
  simp only [decimal, if_pos (show u ≥ 10 from h), digitChar, this]

/-- Two digits, zero-padded. -/
theorem appendInt_two (b : List Char) (x : Int) (h0 : 0 ≤ x) (h1 : x < 100) :
    appendInt b x 2 = b ++ [digitChar (x / 10), digitChar (x % 10)] := by
  have hu : u64 x = x := by simp only [u64]; omega
  simp only [appendInt, if_neg (show ¬ x < 0 by omega), hu]
  by_cases h : x < 10
  · rw [decimal_lt_10 _ _ _ h]
    have e1 : x / 10 = 0 := by omega
    have e2 : x % 10 = x := by omega
    simp [e1, e2, digitChar, List.replicate]
  · rw [decimal_ge_10 _ _ _ (by omega), decimal_lt_10 _ _ _ (by omega)]
    simp

/-- Four digits, zero-padded. -/
theorem appendInt_four (b : List Char) (x : Int) (h0 : 0 ≤ x) (h1 : x < 10000) :
    appendInt b x 4
      = b ++ [digitChar (x / 1000), digitChar (x / 100 % 10), digitChar (x / 10 % 10),
          digitChar (x % 10)] := by
  have hu : u64 x = x := by simp only [u64]; omega
  simp only [appendInt, if_neg (show ¬ x < 0 by omega), hu]
  by_cases h : x < 10
  · rw [decimal_lt_10 _ _ _ h]
    have e1 : x / 1000 = 0 := by omega
    have e2 : x / 100 % 10 = 0 := by omega
    have e3 : x / 10 % 10 = 0 := by omega
    have e4 : x % 10 = x := by omega
    simp [e1, e2, e3, e4, digitChar, List.replicate]
  · rw [decimal_ge_10 _ _ _ (by omega)]
    by_cases h2 : x < 100
    · rw [decimal_lt_10 _ _ _ (by omega)]
      have e1 : x / 1000 = 0 := by omega
      have e2 : x / 100 % 10 = 0 := by omega
      have e3 : x / 10 % 10 = x / 10 := by omega
      simp [e1, e2, e3, digitChar, List.replicate]
    · rw [decimal_ge_10 _ _ _ (by omega)]
      by_cases h3 : x < 1000
      · rw [decimal_lt_10 _ _ _ (by omega)]
        have e1 : x / 1000 = 0 := by omega
        have e2 : x / 10 / 10 = x / 100 % 10 := by omega
        simp [e1, e2, digitChar, List.replicate]
      · rw [decimal_ge_10 _ _ _ (by omega), decimal_lt_10 _ _ _ (by omega)]
        have e1 : x / 10 / 10 / 10 = x / 1000 := by omega
        have e2 : x / 10 / 10 % 10 = x / 100 % 10 := by omega
        simp [e1, e2]

theorem digitChar_digitVal (c : Char) (h0 : 48 ≤ c.toNat) :
    digitChar (digitVal c) = c := by
  have : (48 + ((c.toNat : Int) - 48)).toNat = c.toNat := by omega
  simp only [digitChar, digitVal, this, Char.ofNat_toNat]

/-! ## Parsing, read backwards -/

theorem skip_dash (l r : List Char) (h : skip l ['-'] = .ok r) : l = '-' :: r := by
  cases l with
  | nil => simp [skip] at h
  | cons v value =>
    by_cases hv : v = '-'
    · subst hv
      simp [skip] at h
      rw [h]
    · simp [skip, hv] at h

theorem getnum_fixed (l r : List Char) (n : Int) (h : getnum l true = some (n, r)) :
    ∃ a b, l = a :: b :: r ∧ isDig a ∧ isDig b ∧ n = digitVal a * 10 + digitVal b := by
  rcases l with _ | ⟨a, _ | ⟨b, rest⟩⟩
  · simp [getnum, isDigit] at h
  · simp [getnum, isDigit] at h
  · simp only [getnum, isDigit, List.get?] at h
    by_cases ha : (decide (48 ≤ a.toNat) && decide (a.toNat ≤ 57)) = false
    · simp [ha] at h
    · by_cases hb : (decide (48 ≤ b.toNat) && decide (b.toNat ≤ 57)) = false
      · simp [ha, hb] at h
      · simp [ha, hb] at h
        simp at ha hb
        refine ⟨a, b, ?_, ?_, ?_, ?_⟩
        · rw [h.2]
        · exact ⟨by omega, by omega⟩
        · exact ⟨by omega, by omega⟩
        · exact h.1.symm

theorem leadingInt_digit (x : Int) (c : Char) (s : List Char) (hc : isDig c)
    (hx0 : 0 ≤ x) (hx : x < 1000) :
    leadingInt x (c :: s) = leadingInt (x * 10 + digitVal c) s := by
  obtain ⟨h0, h1⟩ := hc
  have e1 : ¬ (c.toNat < 48 ∨ c.toNat > 57) := by omega
  have e2 : ¬ (x > 9223372036854775808 / 10) := by omega
  have e3 : ¬ (x * 10 + digitVal c > 9223372036854775808) := by
    simp only [digitVal]; omega
  simp only [leadingInt, if_neg e1, if_neg e2, if_neg e3]

theorem leadingInt_nondigit (x : Int) (c : Char) (s : List Char) (hc : ¬ isDig c) :
    leadingInt x (c :: s) = some (x, c :: s) := by
  have e1 : (c.toNat < 48 ∨ c.toNat > 57) := by
    simp only [isDig] at hc; omega
  simp only [leadingInt, if_pos e1]

theorem atoi_digit_head (c : Char) (s : List Char) (hc : isDig c) :
    atoi (c :: s) =
      match leadingInt 0 (c :: s) with
      | none => none
      | some (q, rem) => if rem.length > 0 then none else some (i64 q) := by
  have h1 : c ≠ '-' := by
    rintro rfl
    simp [isDig] at hc
  have h2 : c ≠ '+' := by
    rintro rfl
    simp [isDig] at hc
  simp [atoi, h1, h2]

theorem i64_small (x : Int) (h0 : 0 ≤ x) (h1 : x < 10000) : i64 x = x := by
  simp only [i64]; omega

theorem year_chunk (l : List Char) (year : Int)
    (h1 : ¬ (l.length < 4 ∨ isDigit l 0 = false)) (h2 : atoi (l.take 4) = some year) :
    ∃ c0 c1 c2 c3 rest, l = c0 :: c1 :: c2 :: c3 :: rest ∧
      isDig c0 ∧ isDig c1 ∧ isDig c2 ∧ isDig c3 ∧
      year = digitVal c0 * 1000 + digitVal c1 * 100 + digitVal c2 * 10 + digitVal c3 := by
  rcases l with _ | ⟨c0, _ | ⟨c1, _ | ⟨c2, _ | ⟨c3, rest⟩⟩⟩⟩
  · simp at h1
  · simp at h1
  · simp at h1
  · simp at h1
  · have hc0 : isDig c0 := by
      simp [isDigit] at h1
      exact ⟨h1.1, h1.2⟩
    have hv (c : Char) (hc : isDig c) : 0 ≤ digitVal c ∧ digitVal c ≤ 9 := by
      simp only [isDig] at hc; simp only [digitVal]; omega
    simp only [List.take] at h2
    rw [atoi_digit_head c0 _ hc0, leadingInt_digit 0 c0 _ hc0 (by omega) (by omega)] at h2
    by_cases hc1 : isDig c1
    · rw [leadingInt_digit _ c1 _ hc1 (by have := hv c0 hc0; omega)
        (by have := hv c0 hc0; omega)] at h2
      by_cases hc2 : isDig c2
      · rw [leadingInt_digit _ c2 _ hc2 (by have := hv c0 hc0; have := hv c1 hc1; omega)
          (by have := hv c0 hc0; have := hv c1 hc1; omega)] at h2
        by_cases hc3 : isDig c3
        · rw [leadingInt_digit _ c3 _ hc3
            (by have := hv c0 hc0; have := hv c1 hc1; have := hv c2 hc2; omega)
            (by have := hv c0 hc0; have := hv c1 hc1; have := hv c2 hc2; omega)] at h2
          simp only [leadingInt, List.length_nil, gt_iff_lt, Nat.lt_irrefl, if_false,
            Option.some.injEq] at h2
          have r0 := hv c0 hc0
          have r1 := hv c1 hc1
          have r2 := hv c2 hc2
          have r3 := hv c3 hc3
          rw [i64_small _ (by omega) (by omega)] at h2
          exact ⟨c0, c1, c2, c3, rest, rfl, hc0, hc1, hc2, hc3, by omega⟩
        · rw [leadingInt_nondigit _ c3 _ hc3] at h2
          simp at h2
      · rw [leadingInt_nondigit _ c2 _ hc2] at h2
        simp at h2
    · rw [leadingInt_nondigit _ c1 _ hc1] at h2
      simp at h2

/-- What `Parse` accepts: four digits, a dash, two digits, a dash, two digits, with the
month between 1 and 12 and the day within the month; the result is midnight UTC of that
date. -/
theorem Parse_ok (v : String) (t : Time) (h : Parse v = .ok t) :
    ∃ c0 c1 c2 c3 c5 c6 c8 c9 : Char,
      v.data = [c0, c1, c2, c3, '-', c5, c6, '-', c8, c9] ∧
      isDig c0 ∧ isDig c1 ∧ isDig c2 ∧ isDig c3 ∧ isDig c5 ∧ isDig c6 ∧ isDig c8 ∧ isDig c9 ∧
      1 ≤ digitVal c5 * 10 + digitVal c6 ∧ digitVal c5 * 10 + digitVal c6 ≤ 12 ∧
      1 ≤ digitVal c8 * 10 + digitVal c9 ∧
      digitVal c8 * 10 + digitVal c9 ≤
        daysIn (digitVal c5 * 10 + digitVal c6)
          (digitVal c0 * 1000 + digitVal c1 * 100 + digitVal c2 * 10 + digitVal c3) ∧
      t = Date (digitVal c0 * 1000 + digitVal c1 * 100 + digitVal c2 * 10 + digitVal c3)
        (digitVal c5 * 10 + digitVal c6) (digitVal c8 * 10 + digitVal c9) 0 0 0 0 UTC := by
  simp only [Parse] at h
  split at h
  · exact absurd h (by simp)
  · rename_i hlen
    split at h
    · exact absurd h (by simp)
    · rename_i year hyear
      obtain ⟨c0, c1, c2, c3, rest, hl, d0, d1, d2, d3, rfl⟩ := year_chunk _ _ hlen hyear
      rw [hl] at h
      simp only [List.drop] at h
      split at h
      · exact absurd h (by simp)
      · rename_i v1 hv1
        have := skip_dash _ _ hv1
        subst this
        split at h
        · exact absurd h (by simp)
        · rename_i month v2 hmonth
          obtain ⟨c5, c6, rfl, d5, d6, rfl⟩ := getnum_fixed _ _ _ hmonth
          split at h
          · exact absurd h (by simp)
          · rename_i hmr
            split at h
            · exact absurd h (by simp)
            · rename_i v3 hv3
              have := skip_dash _ _ hv3
              subst this
              split at h
              · exact absurd h (by simp)
              · rename_i day v4 hday
                obtain ⟨c8, c9, rfl, d8, d9, rfl⟩ := getnum_fixed _ _ _ hday
                split at h
                · exact absurd h (by simp)
                · rename_i hrest
                  split at h
                  · exact absurd h (by simp)
                  · rename_i hdr
                    have hv4 : v4 = [] := by
                      cases v4 with
                      | nil => rfl
                      | cons a b => simp at hrest
                    subst hv4
                    refine ⟨c0, c1, c2, c3, c5, c6, c8, c9, hl, d0, d1, d2, d3, d5, d6, d8, d9,
                      by omega, by omega, by omega, by omega, ?_⟩
                    simp only [Except.ok.injEq] at h
                    exact h.symm

theorem daysSinceEpoch_bounds (year : Int) (hlo : absoluteZeroYear ≤ year)
    (hhi : year - absoluteZeroYear < 18446744073709551616) :
    0 ≤ daysSinceEpoch year ∧ daysSinceEpoch year ≤ 366 * (year - absoluteZeroYear) := by
  obtain ⟨a, b, c, e, ha, hb0, hb, hc0, hc, he0, he, hy⟩ :=
    year_cycle (year - absoluteZeroYear) (by omega)
  have hyear : year = 400 * a + 100 * b + 4 * c + e + absoluteZeroYear := by omega
  rw [hyear, daysSinceEpoch_cycle a b c e ha hb0 hb hc0 hc he0 he (by omega)]
  omega

theorem daysIn_eq (m year : Int) : daysIn m year = monthLen (isLeap year) m := by
  simp only [daysIn, monthLen]

/-- The date of a `Date` built from a valid civil date of the years 0 to 9999 at midnight
UTC. -/
theorem Date_midnight (year month day : Int) (hy0 : 0 ≤ year) (hy1 : year ≤ 9999)
    (hm0 : 1 ≤ month) (hm1 : month ≤ 12) (hd0 : 1 ≤ day) (hd1 : day ≤ daysIn month year) :
    (Date year month day 0 0 0 0 UTC).Date = (year, month, day) := by
  rw [daysIn_eq] at hd1
  have hlo : absoluteZeroYear ≤ year := by simp only [absoluteZeroYear]; omega
  have hhi : year < 9223372036854775808 + absoluteZeroYear := by
    simp only [absoluteZeroYear]; omega
  obtain ⟨b0, b1⟩ := daysSinceEpoch_bounds year hlo (by simp only [absoluteZeroYear]; omega)
  obtain ⟨m, rfl⟩ := Int.eq_ofNat_of_zero_le (show 0 ≤ month by omega)
  obtain ⟨d, rfl⟩ := Int.eq_ofNat_of_zero_le (show 0 ≤ day by omega)
  have hd31 : d < 32 := by
    have : ∀ leap : Bool, ∀ k : Nat, k < 13 → monthLen leap k ≤ 31 := by decide
    have := this (isLeap year) m (by omega)
    omega
  obtain ⟨_, t2, t3⟩ := yearDay_table (isLeap year) m (by omega) d hd31
    ⟨by omega, by omega, hd1⟩
  obtain ⟨_, hq⟩ := absClock_of (daysSinceEpoch year + yearDay (isLeap year) m d) 0 0 0
    (by omega) (by omega) (by omega) (by omega) (by omega) (by omega)
  have hx : u64 ((daysSinceEpoch year + yearDay (isLeap year) m d) * 86400
      + (0 * 3600 + 0 * 60 + 0))
      = (daysSinceEpoch year + yearDay (isLeap year) m d) * 86400 + (0 * 3600 + 0 * 60 + 0) := by
    simp only [absoluteZeroYear] at b1
    simp only [u64]; omega
  rw [Time.Date, Date_eq _ _ _ _ _ _ _ _ hm0 hm1 (by omega) (by omega) (by omega) (by omega)
    (by omega) (by omega) (by omega) (by omega), Location.dateOffset_of_tx_nil UTC rfl,
    Time.abs_mk_i64 _ _ UTC rfl, hx]
  exact absDate_of _ _ _ hlo hhi hm0 hm1 hd0 hd1 _ hq

/-- Formatting what was parsed gives back the text. -/
theorem Format_Parse (v : String) (t : Time) (h : Parse v = .ok t) : t.Format = v := by
  obtain ⟨c0, c1, c2, c3, c5, c6, c8, c9, hv, d0, d1, d2, d3, d5, d6, d8, d9, m0, m1, y0, y1,
    rfl⟩ := Parse_ok v t h
  have hr (c : Char) (hc : isDig c) : 0 ≤ digitVal c ∧ digitVal c ≤ 9 := by
    simp only [isDig] at hc; simp only [digitVal]; omega
  have r0 := hr c0 d0
  have r1 := hr c1 d1
  have r2 := hr c2 d2
  have r3 := hr c3 d3
  have r5 := hr c5 d5
  have r6 := hr c6 d6
  have r8 := hr c8 d8
  have r9 := hr c9 d9
  have hdate := Date_midnight _ _ _ (by omega) (by omega) m0 m1 y0 y1
  simp only [Time.Format, hdate, formatDate]
  rw [appendInt_four _ _ (by omega) (by omega), appendInt_two _ _ (by omega) (by omega),
    appendInt_two _ _ (by omega) (by omega)]
  have e0 : (digitVal c0 * 1000 + digitVal c1 * 100 + digitVal c2 * 10 + digitVal c3) / 1000
      = digitVal c0 := by omega
  have e1 : (digitVal c0 * 1000 + digitVal c1 * 100 + digitVal c2 * 10 + digitVal c3) / 100 % 10
      = digitVal c1 := by omega
  have e2 : (digitVal c0 * 1000 + digitVal c1 * 100 + digitVal c2 * 10 + digitVal c3) / 10 % 10
      = digitVal c2 := by omega
  have e3 : (digitVal c0 * 1000 + digitVal c1 * 100 + digitVal c2 * 10 + digitVal c3) % 10
      = digitVal c3 := by omega
  have e5 : (digitVal c5 * 10 + digitVal c6) / 10 = digitVal c5 := by omega
  have e6 : (digitVal c5 * 10 + digitVal c6) % 10 = digitVal c6 := by omega
  have e8 : (digitVal c8 * 10 + digitVal c9) / 10 = digitVal c8 := by omega
  have e9 : (digitVal c8 * 10 + digitVal c9) % 10 = digitVal c9 := by omega
  simp only [e0, e1, e2, e3, e5, e6, e8, e9, digitChar_digitVal _ d0.1, digitChar_digitVal _ d1.1,
    digitChar_digitVal _ d2.1, digitChar_digitVal _ d3.1, digitChar_digitVal _ d5.1,
    digitChar_digitVal _ d6.1, digitChar_digitVal _ d8.1, digitChar_digitVal _ d9.1]
  cases v with
  | mk data =>
    simp only at hv
    subst hv
    simp


/-! ## Parsing, read forwards -/

theorem atoi_four (c0 c1 c2 c3 : Char) (d0 : isDig c0) (d1 : isDig c1) (d2 : isDig c2)
    (d3 : isDig c3) :
    atoi [c0, c1, c2, c3]
      = some (digitVal c0 * 1000 + digitVal c1 * 100 + digitVal c2 * 10 + digitVal c3) := by
  have hv (c : Char) (hc : isDig c) : 0 ≤ digitVal c ∧ digitVal c ≤ 9 := by
    simp only [isDig] at hc; simp only [digitVal]; omega
  have r0 := hv c0 d0
  have r1 := hv c1 d1
  have r2 := hv c2 d2
  have r3 := hv c3 d3
  rw [atoi_digit_head c0 _ d0, leadingInt_digit 0 c0 _ d0 (by omega) (by omega),
    leadingInt_digit _ c1 _ d1 (by omega) (by omega),
    leadingInt_digit _ c2 _ d2 (by omega) (by omega),
    leadingInt_digit _ c3 _ d3 (by omega) (by omega)]
  simp only [leadingInt, List.length_nil, gt_iff_lt, Nat.lt_irrefl, if_false]
  rw [i64_small _ (by omega) (by omega)]
  congr 1
  omega

theorem getnum_two (a b : Char) (r : List Char) (da : isDig a) (db : isDig b) :
    getnum (a :: b :: r) true = some (digitVal a * 10 + digitVal b, r) := by
  simp only [isDig] at da db
  simp [getnum, isDigit, da.1, da.2, db.1, db.2]

theorem skip_dash_cons (r : List Char) : skip ('-' :: r) ['-'] = .ok r := by
  simp [skip]

/-- `Parse` accepts every text of the shape of `Parse_ok`. -/
theorem Parse_of_shape (v : String) (c0 c1 c2 c3 c5 c6 c8 c9 : Char)
    (hv : v.data = [c0, c1, c2, c3, '-', c5, c6, '-', c8, c9])
    (d0 : isDig c0) (d1 : isDig c1) (d2 : isDig c2) (d3 : isDig c3) (d5 : isDig c5)
    (d6 : isDig c6) (d8 : isDig c8) (d9 : isDig c9)
    (m0 : 1 ≤ digitVal c5 * 10 + digitVal c6) (m1 : digitVal c5 * 10 + digitVal c6 ≤ 12)
    (y0 : 1 ≤ digitVal c8 * 10 + digitVal c9)
    (y1 : digitVal c8 * 10 + digitVal c9 ≤
        daysIn (digitVal c5 * 10 + digitVal c6)
          (digitVal c0 * 1000 + digitVal c1 * 100 + digitVal c2 * 10 + digitVal c3)) :
    Parse v = .ok (Date (digitVal c0 * 1000 + digitVal c1 * 100 + digitVal c2 * 10 + digitVal c3)
        (digitVal c5 * 10 + digitVal c6) (digitVal c8 * 10 + digitVal c9) 0 0 0 0 UTC) := by
  have h1 : ¬ (v.data.length < 4 ∨ isDigit v.data 0 = false) := by
    simp only [isDig] at d0
    simp [hv, isDigit, d0.1, d0.2]
  have h2 : atoi (List.take 4 v.data) = some (digitVal c0 * 1000 + digitVal c1 * 100
      + digitVal c2 * 10 + digitVal c3) := by
    rw [hv]; exact atoi_four c0 c1 c2 c3 d0 d1 d2 d3
  have h3 : skip (List.drop 4 v.data) ['-'] = .ok [c5, c6, '-', c8, c9] := by
    rw [hv]; exact skip_dash_cons _
  have h4 := getnum_two c5 c6 ['-', c8, c9] d5 d6
  have h5 := skip_dash_cons [c8, c9]
  have h6 := getnum_two c8 c9 [] d8 d9
  have h7 : ¬ (digitVal c5 * 10 + digitVal c6 ≤ 0 ∨ 12 < digitVal c5 * 10 + digitVal c6) := by
    omega
  have h8 : ¬ (digitVal c8 * 10 + digitVal c9 < 1 ∨ digitVal c8 * 10 + digitVal c9 >
      daysIn (digitVal c5 * 10 + digitVal c6)
        (digitVal c0 * 1000 + digitVal c1 * 100 + digitVal c2 * 10 + digitVal c3)) := by
    omega
  simp only [Parse, if_neg h1, h2, h3, h4, h5, h6, if_neg h7, if_neg h8, List.length_nil,
    ne_eq, not_true_eq_false, if_false]

/-! ## The canonical dates are what `Parse` accepts -/

theorem isLeap_eq_leapYear (y : Int) : isLeap y = leapYear y := by
  rw [Bool.eq_iff_iff, isLeap_iff]
  simp [leapYear]

theorem daysIn_eq_monthDays (m y : Int) (h0 : 1 ≤ m) (h1 : m ≤ 12) :
    daysIn m y = monthDays y m := by
  simp only [daysIn, monthDays, isLeap_eq_leapYear]
  interval_cases m <;> simp [daysBeforeAt, daysBefore]

theorem isCanonicalDate_shape (v : String) (h : isCanonicalDate v = true) :
    ∃ c0 c1 c2 c3 c5 c6 c8 c9 : Char,
      v.data = [c0, c1, c2, c3, '-', c5, c6, '-', c8, c9] ∧
      isDig c0 ∧ isDig c1 ∧ isDig c2 ∧ isDig c3 ∧ isDig c5 ∧ isDig c6 ∧ isDig c8 ∧ isDig c9 ∧
      1 ≤ digitVal c5 * 10 + digitVal c6 ∧ digitVal c5 * 10 + digitVal c6 ≤ 12 ∧
      1 ≤ digitVal c8 * 10 + digitVal c9 ∧
      digitVal c8 * 10 + digitVal c9 ≤
        daysIn (digitVal c5 * 10 + digitVal c6)
          (digitVal c0 * 1000 + digitVal c1 * 100 + digitVal c2 * 10 + digitVal c3) := by
  simp only [isCanonicalDate] at h
  split at h
  · rename_i c0 c1 c2 c3 s1 c5 c6 s2 c8 c9 hv
    simp only [Bool.and_eq_true, decide_eq_true_eq] at h
    obtain ⟨⟨⟨⟨rfl, rfl⟩, d0, d1, d2, d3⟩, d5, d6, d8, d9⟩, m0, m1, y0, y1⟩ := h
    rw [← daysIn_eq_monthDays _ _ m0 m1] at y1
    exact ⟨c0, c1, c2, c3, c5, c6, c8, c9, hv, d0, d1, d2, d3, d5, d6, d8, d9, m0, m1, y0, y1⟩
  · exact absurd h (by simp)

/-- A canonical date parses. -/
theorem Parse_of_canonical (v : String) (h : isCanonicalDate v = true) :
    ∃ t, Parse v = .ok t := by
  obtain ⟨c0, c1, c2, c3, c5, c6, c8, c9, hv, d0, d1, d2, d3, d5, d6, d8, d9, m0, m1, y0, y1⟩ :=
    isCanonicalDate_shape v h
  exact ⟨_, Parse_of_shape v c0 c1 c2 c3 c5 c6 c8 c9 hv d0 d1 d2 d3 d5 d6 d8 d9 m0 m1 y0 y1⟩

/-- Only canonical dates parse. -/
theorem canonical_of_Parse (v : String) (t : Time) (h : Parse v = .ok t) :
    isCanonicalDate v = true := by
  obtain ⟨c0, c1, c2, c3, c5, c6, c8, c9, hv, d0, d1, d2, d3, d5, d6, d8, d9, m0, m1, y0, y1,
    _⟩ := Parse_ok v t h
  rw [daysIn_eq_monthDays _ _ m0 m1] at y1
  simp only [isCanonicalDate, hv, Bool.and_eq_true, decide_eq_true_eq]
  exact ⟨⟨⟨⟨trivial, trivial⟩, d0, d1, d2, d3⟩, d5, d6, d8, d9⟩, m0, m1, y0, y1⟩

/-! ## The object store -/

theorem Store.get_put_same (s : Store) (key : String) (obj : Object) :
    (s.put key obj).get key = some obj := by
  simp [Store.get, Store.put]

theorem Store.get_put_other (s : Store) (key k : String) (obj : Object) (h : k ≠ key) :
    (s.put key obj).get k = s.get k := by
  have h1 : (key == k) = false := by
    simp only [beq_eq_false_iff_ne, ne_eq]
    exact fun e => h e.symm
  simp only [Store.get, Store.put, List.find?_cons, h1]
  congr 1
  induction s with
  | nil => rfl
  | cons kv rest ih =>
    cases h2 : (kv.1 == key) <;> cases h3 : (kv.1 == k)
    · simp [List.filter_cons, List.find?_cons, h2, h3, ih]
    · simp [List.filter_cons, List.find?_cons, h2, h3]
    · simp [List.filter_cons, List.find?_cons, h2, h3, ih]
    · exfalso
      simp only [beq_iff_eq] at h2 h3
      exact h (h3.symm.trans h2)

theorem Store.count_put_same (s : Store) (key : String) (obj : Object) :
    (s.put key obj).count key = 1 := by
  simp [Store.count, Store.put, List.filter_cons, List.filter_filter]

/-! ## The paths of `uploadHandler` -/

theorem uploadHandler_not_put {Action : Type} (env : Env Action) (store : Store) (r : Request)
    (hm : r.Method ≠ "PUT") :
    uploadHandler env store r = ⟨httpError "" StatusMethodNotAllowed, [], store⟩ := by
  simp only [uploadHandler, if_pos hm]

theorem uploadHandler_bad_date {Action : Type} (env : Env Action) (store : Store) (r : Request)
    (err : ParseError) (hm : r.Method = "PUT")
    (hd : reportDate env.now (r.Get "date") = .error err) :
    uploadHandler env store r
      = ⟨httpError ("could not parse date: " ++ err.Error) StatusBadRequest, [.now], store⟩ := by
  simp only [uploadHandler, hm, hd, ne_eq, not_true_eq_false, if_false]

theorem uploadHandler_fetch_failed {Action : Type} (env : Env Action) (store : Store)
    (r : Request) (t : Time) (e : String) (hm : r.Method = "PUT")
    (hd : reportDate env.now (r.Get "date") = .ok t) (hf : env.ListActions t = .error e) :
    uploadHandler env store r
      = ⟨httpError ("could not get actions: " ++ e) StatusInternalServerError,
          [.now, .listActions t], store⟩ := by
  simp only [uploadHandler, hm, hd, hf, ne_eq, not_true_eq_false, if_false]

theorem uploadHandler_marshal_failed {Action : Type} (env : Env Action) (store : Store)
    (r : Request) (t : Time) (actions : List Action) (e : String) (hm : r.Method = "PUT")
    (hd : reportDate env.now (r.Get "date") = .ok t) (hf : env.ListActions t = .ok actions)
    (hj : env.Marshal actions = .error e) :
    uploadHandler env store r
      = ⟨httpError ("could not marshal actions: " ++ e) StatusInternalServerError,
          [.now, .listActions t], store⟩ := by
  simp only [uploadHandler, hm, hd, hf, hj, ne_eq, not_true_eq_false, if_false]

theorem uploadHandler_write_failed {Action : Type} (env : Env Action) (store : Store)
    (r : Request) (t : Time) (actions : List Action) (b e : String) (hm : r.Method = "PUT")
    (hd : reportDate env.now (r.Get "date") = .ok t) (hf : env.ListActions t = .ok actions)
    (hj : env.Marshal actions = .ok b)
    (hw : env.Copy store ⟨env.bucketName, t.Format ++ ".json", [⟨AllUsers, RoleReader⟩],
      "application/json"⟩ b = some e) :
    uploadHandler env store r
      = ⟨httpError ("could not write file: " ++ e) StatusInternalServerError,
          [.now, .listActions t, .newWriter env.bucketName (t.Format ++ ".json"),
            .setACL [⟨AllUsers, RoleReader⟩], .setContentType "application/json", .write b],
          store⟩ := by
  simp only [uploadHandler, NewWriter, hm, hd, hf, hj, hw, ne_eq, not_true_eq_false, if_false]

theorem uploadHandler_close_failed {Action : Type} (env : Env Action) (store : Store)
    (r : Request) (t : Time) (actions : List Action) (b e : String) (hm : r.Method = "PUT")
    (hd : reportDate env.now (r.Get "date") = .ok t) (hf : env.ListActions t = .ok actions)
    (hj : env.Marshal actions = .ok b)
    (hw : env.Copy store ⟨env.bucketName, t.Format ++ ".json", [⟨AllUsers, RoleReader⟩],
      "application/json"⟩ b = none)
    (hc : env.Close store ⟨env.bucketName, t.Format ++ ".json", [⟨AllUsers, RoleReader⟩],
      "application/json"⟩ b = some e) :
    uploadHandler env store r
      = ⟨httpError ("could not put file: " ++ e) StatusInternalServerError,
          [.now, .listActions t, .newWriter env.bucketName (t.Format ++ ".json"),
            .setACL [⟨AllUsers, RoleReader⟩], .setContentType "application/json", .write b,
            .close],
          store⟩ := by
  simp only [uploadHandler, NewWriter, hm, hd, hf, hj, hw, hc, ne_eq, not_true_eq_false,
    if_false, List.cons_append, List.nil_append]

theorem uploadHandler_published {Action : Type} (env : Env Action) (store : Store)
    (r : Request) (t : Time) (actions : List Action) (b : String) (hm : r.Method = "PUT")
    (hd : reportDate env.now (r.Get "date") = .ok t) (hf : env.ListActions t = .ok actions)
    (hj : env.Marshal actions = .ok b)
    (hw : env.Copy store ⟨env.bucketName, t.Format ++ ".json", [⟨AllUsers, RoleReader⟩],
      "application/json"⟩ b = none)
    (hc : env.Close store ⟨env.bucketName, t.Format ++ ".json", [⟨AllUsers, RoleReader⟩],
      "application/json"⟩ b = none) :
    uploadHandler env store r
      = ⟨⟨StatusOK, "https://storage.googleapis.com/" ++ env.bucketName ++ "/"
            ++ (t.Format ++ ".json")⟩,
          [.now, .listActions t, .newWriter env.bucketName (t.Format ++ ".json"),
            .setACL [⟨AllUsers, RoleReader⟩], .setContentType "application/json", .write b,
            .close],
          store.put (t.Format ++ ".json")
            ⟨b, "application/json", [⟨AllUsers, RoleReader⟩]⟩⟩ := by
  simp only [uploadHandler, NewWriter, hm, hd, hf, hj, hw, hc, ne_eq, not_true_eq_false,
    if_false, List.cons_append, List.nil_append]

/-- After a date was resolved, the first two events are the clock and the registry call
for that date. -/
theorem uploadHandler_trace_head {Action : Type} (env : Env Action) (store : Store)
    (r : Request) (t : Time) (hm : r.Method = "PUT")
    (hd : reportDate env.now (r.Get "date") = .ok t) :
    (uploadHandler env store r).trace.take 2 = [.now, .listActions t] := by
  simp only [uploadHandler, NewWriter, hm, hd, ne_eq, not_true_eq_false, if_false]
  split
  · rfl
  · split
    · rfl
    · split
      · rfl
      · split <;> rfl

/-- After the registry answered and the answer was serialised, the third event opens the
writer for the file of the date. -/
theorem uploadHandler_trace_writer {Action : Type} (env : Env Action) (store : Store)
    (r : Request) (t : Time) (actions : List Action) (b : String) (hm : r.Method = "PUT")
    (hd : reportDate env.now (r.Get "date") = .ok t) (hf : env.ListActions t = .ok actions)
    (hj : env.Marshal actions = .ok b) :
    (uploadHandler env store r).trace.get? 2
      = some (.newWriter env.bucketName (t.Format ++ ".json")) := by
  simp only [uploadHandler, NewWriter, hm, hd, hf, hj, ne_eq, not_true_eq_false, if_false]
  split
  · rfl
  · split <;> rfl

theorem put_ne_write (e1 e2 : String) :
    "could not put file: " ++ e1 ++ "\n" ≠ "could not write file: " ++ e2 ++ "\n" := by
  intro h
  have := congrArg String.data h
  simp at this

theorem url_ne_write (x e : String) :
    "https://storage.googleapis.com/" ++ x ≠ "could not write file: " ++ e ++ "\n" := by
  intro h
  have := congrArg String.data h
  simp at this

theorem url_ne_put (x e : String) :
    "https://storage.googleapis.com/" ++ x ≠ "could not put file: " ++ e ++ "\n" := by
  intro h
  have := congrArg String.data h
  simp at this


/-- Every run that opens a writer is of one of three kinds: the write fails, the close
fails, or the object is published. -/
theorem uploadHandler_opened {Action : Type} (env : Env Action) (store : Store) (r : Request)
    (bucket name : String)
    (h : Event.newWriter bucket name ∈ (uploadHandler env store r).trace) :
    ∃ t actions b, r.Method = "PUT" ∧ reportDate env.now (r.Get "date") = .ok t ∧
      env.ListActions t = .ok actions ∧ env.Marshal actions = .ok b ∧
      ((∃ e, env.Copy store ⟨env.bucketName, t.Format ++ ".json", [⟨AllUsers, RoleReader⟩],
          "application/json"⟩ b = some e) ∨
        (env.Copy store ⟨env.bucketName, t.Format ++ ".json", [⟨AllUsers, RoleReader⟩],
          "application/json"⟩ b = none ∧
          ∃ e, env.Close store ⟨env.bucketName, t.Format ++ ".json", [⟨AllUsers, RoleReader⟩],
            "application/json"⟩ b = some e) ∨
        (env.Copy store ⟨env.bucketName, t.Format ++ ".json", [⟨AllUsers, RoleReader⟩],
          "application/json"⟩ b = none ∧
          env.Close store ⟨env.bucketName, t.Format ++ ".json", [⟨AllUsers, RoleReader⟩],
            "application/json"⟩ b = none)) := by
  by_cases hm : r.Method = "PUT"
  · cases hd : reportDate env.now (r.Get "date") with
    | error err =>
      rw [uploadHandler_bad_date env store r err hm hd] at h
      simp at h
    | ok t =>
      cases hf : env.ListActions t with
      | error e =>
        rw [uploadHandler_fetch_failed env store r t e hm hd hf] at h
        simp at h
      | ok actions =>
        cases hj : env.Marshal actions with
        | error e =>
          rw [uploadHandler_marshal_failed env store r t actions e hm hd hf hj] at h
          simp at h
        | ok b =>
          refine ⟨t, actions, b, hm, rfl, hf, hj, ?_⟩
          cases hw : env.Copy store ⟨env.bucketName, t.Format ++ ".json",
              [⟨AllUsers, RoleReader⟩], "application/json"⟩ b with
          | some e => exact Or.inl ⟨e, rfl⟩
          | none =>
            cases hc : env.Close store ⟨env.bucketName, t.Format ++ ".json",
                [⟨AllUsers, RoleReader⟩], "application/json"⟩ b with
            | some e => exact Or.inr (Or.inl ⟨rfl, e, rfl⟩)
            | none => exact Or.inr (Or.inr ⟨rfl, rfl⟩)
  · rw [uploadHandler_not_put env store r hm] at h
    simp at h

/-- Once the date is resolved, the answer is never 400: it is 200, or 500 from one of the
four later steps. -/
theorem uploadHandler_status_of_date {Action : Type} (env : Env Action) (store : Store)
    (r : Request) (t : Time) (hm : r.Method = "PUT")
    (hd : reportDate env.now (r.Get "date") = .ok t) :
    (uploadHandler env store r).resp.status ≠ 400 := by
  cases hf : env.ListActions t with
  | error e =>
    rw [uploadHandler_fetch_failed env store r t e hm hd hf]
    simp [httpError, StatusInternalServerError]
  | ok actions =>
    cases hj : env.Marshal actions with
    | error e =>
      rw [uploadHandler_marshal_failed env store r t actions e hm hd hf hj]
      simp [httpError, StatusInternalServerError]
    | ok b =>
      cases hw : env.Copy store ⟨env.bucketName, t.Format ++ ".json",
          [⟨AllUsers, RoleReader⟩], "application/json"⟩ b with
      | some e =>
        rw [uploadHandler_write_failed env store r t actions b e hm hd hf hj hw]
        simp [httpError, StatusInternalServerError]
      | none =>
        cases hc : env.Close store ⟨env.bucketName, t.Format ++ ".json",
            [⟨AllUsers, RoleReader⟩], "application/json"⟩ b with
        | some e =>
          rw [uploadHandler_close_failed env store r t actions b e hm hd hf hj hw hc]
          simp [httpError, StatusInternalServerError]
        | none =>
          rw [uploadHandler_published env store r t actions b hm hd hf hj hw hc]
          simp [StatusOK]

/-! ## The claims -/

/-- Claim C1: when the method is `PUT` and date resolution, the registry call, the
serialisation, the write and the close all succeed, the handler opens exactly one writer,
for the key `format(d) + ".json"`, sets the public-read ACL and the content type
`application/json` on it before writing, writes exactly the serialised bytes and closes;
afterwards the store holds exactly one object under that key, with those bytes and
attributes, all other keys are untouched, and the response is 200 with the body
`https://storage.googleapis.com/<bucket>/<key>`. -/
theorem uploadHandler_success {Action : Type} (env : Env Action) (store : Store)
    (r : Request) (t : Time) (actions : List Action) (b : String) (hm : r.Method = "PUT")
    (hd : reportDate env.now (r.Get "date") = .ok t) (hf : env.ListActions t = .ok actions)
    (hj : env.Marshal actions = .ok b)
    (hw : env.Copy store ⟨env.bucketName, t.Format ++ ".json", [⟨AllUsers, RoleReader⟩],
      "application/json"⟩ b = none)
    (hc : env.Close store ⟨env.bucketName, t.Format ++ ".json", [⟨AllUsers, RoleReader⟩],
      "application/json"⟩ b = none) :
    (uploadHandler env store r).trace
        = [.now, .listActions t, .newWriter env.bucketName (t.Format ++ ".json"),
            .setACL [⟨"allUsers", "READER"⟩], .setContentType "application/json", .write b,
            .close] ∧
      (uploadHandler env store r).store.get (t.Format ++ ".json")
        = some ⟨b, "application/json", [⟨"allUsers", "READER"⟩]⟩ ∧
      (uploadHandler env store r).store.count (t.Format ++ ".json") = 1 ∧
      (∀ k, k ≠ t.Format ++ ".json" → (uploadHandler env store r).store.get k = store.get k) ∧
      (uploadHandler env store r).resp
        = ⟨200, "https://storage.googleapis.com/" ++ env.bucketName ++ "/"
            ++ (t.Format ++ ".json")⟩ := by
  rw [uploadHandler_published env store r t actions b hm hd hf hj hw hc]
  exact ⟨rfl, Store.get_put_same _ _ _, Store.count_put_same _ _ _,
    fun k hk => Store.get_put_other _ _ _ _ hk, rfl⟩

set_option maxRecDepth 10000 in
/-- The run for 2023-06-01 with a registry of two actions publishes `2023-06-01.json`. -/
theorem uploadHandler_success_example :
    (uploadHandler exampleEnv exampleStore juneRequest).trace
        = [.now, .listActions ⟨1685577600, 0, UTC⟩, .newWriter "reports" "2023-06-01.json",
            .setACL [⟨"allUsers", "READER"⟩], .setContentType "application/json",
            .write exampleBody, .close] ∧
      (uploadHandler exampleEnv exampleStore juneRequest).store.get "2023-06-01.json"
        = some ⟨exampleBody, "application/json", [⟨"allUsers", "READER"⟩]⟩ ∧
      (uploadHandler exampleEnv exampleStore juneRequest).store.count "2023-06-01.json" = 1 ∧
      (uploadHandler exampleEnv exampleStore juneRequest).resp
        = ⟨200, "https://storage.googleapis.com/reports/2023-06-01.json"⟩ := by
  have h := uploadHandler_success exampleEnv exampleStore juneRequest ⟨1685577600, 0, UTC⟩
    [1, 2] exampleBody (by decide) (by decide) (by decide) (by decide) (by decide) (by decide)
  have hf : (Time.mk 1685577600 0 UTC).Format = "2023-06-01" := by decide
  rw [hf] at h
  exact ⟨h.1, h.2.1, h.2.2.1, h.2.2.2.2⟩

/-- Claim C2: for every valid date string `d` in the canonical format `YYYY-MM-DD`, a `PUT`
with `date=d` resolves to the date `d`: parsing succeeds and formatting the parsed time
gives back `d`; the registry is queried for that time, and the writer is opened for the
key `d + ".json"`. -/
theorem canonical_date_roundtrip {Action : Type} (env : Env Action) (store : Store)
    (r : Request) (d : String) (hm : r.Method = "PUT") (hq : r.Get "date" = d)
    (hv : isCanonicalDate d = true) :
    ∃ t, Parse d = .ok t ∧ t.Format = d ∧
      reportDate env.now (r.Get "date") = .ok t ∧
      (uploadHandler env store r).trace.take 2 = [.now, .listActions t] ∧
      (∀ actions b, env.ListActions t = .ok actions → env.Marshal actions = .ok b →
        (uploadHandler env store r).trace.get? 2
          = some (.newWriter env.bucketName (d ++ ".json"))) := by
  obtain ⟨t, ht⟩ := Parse_of_canonical d hv
  have hf := Format_Parse d t ht
  have hne : d ≠ "" := by
    rintro rfl
    simp [isCanonicalDate] at hv
  have hd : reportDate env.now (r.Get "date") = .ok t := by
    simp only [reportDate, hq, ne_eq, hne, not_false_eq_true, if_true, ht]
  refine ⟨t, ht, hf, hd, uploadHandler_trace_head env store r t hm hd, ?_⟩
  intro actions b hl hj
  rw [uploadHandler_trace_writer env store r t actions b hm hd hl hj, hf]

/-- The date `2023-06-01` goes through the handler unchanged. -/
theorem canonical_date_roundtrip_example :
    ∃ t, Parse "2023-06-01" = .ok t ∧ t.Format = "2023-06-01" ∧
      reportDate exampleEnv.now (juneRequest.Get "date") = .ok t ∧
      (uploadHandler exampleEnv exampleStore juneRequest).trace.take 2
        = [.now, .listActions t] ∧
      (∀ actions b, exampleEnv.ListActions t = .ok actions →
        exampleEnv.Marshal actions = .ok b →
        (uploadHandler exampleEnv exampleStore juneRequest).trace.get? 2
          = some (.newWriter exampleEnv.bucketName ("2023-06-01" ++ ".json"))) :=
  canonical_date_roundtrip exampleEnv exampleStore juneRequest "2023-06-01" (by decide)
    (by decide) (by decide)

/-- Claim C4, as the code has it: for every `PUT` whose `date` parameter has a non-empty
value that is not a valid date in the canonical format, parsing fails and the handler
responds with status 400 and the message `could not parse date: ` followed by the text of
the parse error; it calls neither the registry nor the object store and leaves the store
as it was.  A `date` parameter with the empty value is treated like an absent parameter:
the run is the run of the request without a query, it is not answered with 400, the date
resolves to yesterday, and the registry is called for it. -/
theorem unparseable_date_rejected {Action : Type} (env : Env Action) (store : Store)
    (r : Request) (hm : r.Method = "PUT") :
    (r.Get "date" ≠ "" → isCanonicalDate (r.Get "date") = false →
      ∃ err, Parse (r.Get "date") = .error err ∧
        (uploadHandler env store r).resp
          = ⟨400, "could not parse date: " ++ err.Error ++ "\n"⟩ ∧
        (uploadHandler env store r).trace = [.now] ∧
        (uploadHandler env store r).store = store) ∧
    (r.Get "date" = "" →
      uploadHandler env store r = uploadHandler env store ⟨"PUT", []⟩ ∧
        reportDate env.now (r.Get "date") = .ok (env.now.AddDate 0 0 (-1)) ∧
        (uploadHandler env store r).resp.status ≠ 400 ∧
        (uploadHandler env store r).trace.take 2
          = [.now, .listActions (env.now.AddDate 0 0 (-1))]) := by
  constructor
  · intro hne hbad
    cases hp : Parse (r.Get "date") with
    | ok t =>
      have := canonical_of_Parse _ t hp
      rw [hbad] at this
      exact absurd this (by simp)
    | error err =>
      have hd : reportDate env.now (r.Get "date") = .error err := by
        simp only [reportDate, ne_eq, hne, not_false_eq_true, if_true, hp]
      rw [uploadHandler_bad_date env store r err hm hd]
      exact ⟨err, rfl, rfl, rfl, rfl⟩
  · intro hq
    have hd : reportDate env.now (r.Get "date") = .ok (env.now.AddDate 0 0 (-1)) := by
      simp only [reportDate, hq, ne_eq, not_true_eq_false, if_false]
    have habsent : (Request.mk "PUT" []).Get "date" = "" := rfl
    refine ⟨?_, hd, ?_, uploadHandler_trace_head env store r _ hm hd⟩
    · simp only [uploadHandler, hm, hq, habsent]
    · exact uploadHandler_status_of_date env store r _ hm hd

set_option maxRecDepth 10000 in
/-- The value `not-a-date` is answered with 400 and the text of the parse error; the empty
value is not, and runs as the request without a query does. -/
theorem unparseable_date_rejected_example :
    (∃ err, Parse "not-a-date" = .error err ∧
      (uploadHandler exampleEnv exampleStore ⟨"PUT", [("date", "not-a-date")]⟩).resp
        = ⟨400, "could not parse date: " ++ err.Error ++ "\n"⟩ ∧
      (uploadHandler exampleEnv exampleStore ⟨"PUT", [("date", "not-a-date")]⟩).trace
        = [.now] ∧
      (uploadHandler exampleEnv exampleStore ⟨"PUT", [("date", "not-a-date")]⟩).store
        = exampleStore) ∧
    (uploadHandler exampleEnv exampleStore ⟨"PUT", [("date", "")]⟩
        = uploadHandler exampleEnv exampleStore ⟨"PUT", []⟩ ∧
      (uploadHandler exampleEnv exampleStore ⟨"PUT", [("date", "")]⟩).resp.status ≠ 400) := by
  have h1 := (unparseable_date_rejected exampleEnv exampleStore
    ⟨"PUT", [("date", "not-a-date")]⟩ (by decide)).1 (by decide) (by decide)
  have h2 := (unparseable_date_rejected exampleEnv exampleStore
    ⟨"PUT", [("date", "")]⟩ (by decide)).2 (by decide)
  exact ⟨h1, h2.1, h2.2.2.1⟩

set_option maxRecDepth 10000 in
/-- Claim C4 as stated fails for the empty value: it does not parse, yet a `PUT` with
`date=` is not answered with 400; the handler falls back to yesterday, calls the registry
and publishes the report. -/
theorem empty_date_not_rejected :
    Parse "" = .error ⟨"2006-01-02", "", "2006", "", ""⟩ ∧
      (uploadHandler exampleEnv exampleStore ⟨"PUT", [("date", "")]⟩).resp
        = ⟨200, "https://storage.googleapis.com/reports/2023-06-01.json"⟩ ∧
      Event.listActions ⟨1685633400, 0, UTC⟩
        ∈ (uploadHandler exampleEnv exampleStore ⟨"PUT", [("date", "")]⟩).trace ∧
      (uploadHandler exampleEnv exampleStore ⟨"PUT", [("date", "")]⟩).store.get
        "2023-06-01.json"
        = some ⟨exampleBody, "application/json", [⟨"allUsers", "READER"⟩]⟩ := by
  decide

/-- Claim C5: for every request whose method is not exactly `PUT`, whatever its query, the
handler responds with status 405 and has no side effect: the clock is not read, the
registry is not called, and the store is not touched. -/
theorem method_not_allowed {Action : Type} (env : Env Action) (store : Store) (r : Request)
    (hm : r.Method ≠ "PUT") :
    (uploadHandler env store r).resp = ⟨405, "\n"⟩ ∧
      (uploadHandler env store r).trace = [] ∧
      (uploadHandler env store r).store = store := by
  rw [uploadHandler_not_put env store r hm]
  exact ⟨rfl, rfl, rfl⟩

/-- A lower-case `put` is not `PUT`. -/
theorem method_not_allowed_example :
    (uploadHandler exampleEnv exampleStore ⟨"put", [("date", "2023-06-01")]⟩).resp
        = ⟨405, "\n"⟩ ∧
      (uploadHandler exampleEnv exampleStore ⟨"put", [("date", "2023-06-01")]⟩).trace = [] ∧
      (uploadHandler exampleEnv exampleStore ⟨"put", [("date", "2023-06-01")]⟩).store
        = exampleStore :=
  method_not_allowed exampleEnv exampleStore ⟨"put", [("date", "2023-06-01")]⟩ (by decide)

/-- Claim C6: for every `PUT` with a resolved date and every store, if `ListActions` fails,
the handler responds with status 500 and the message `could not get actions: ` followed by
the error text, no writer is opened, and the store is unchanged, at the target key as at
every other. -/
theorem fetch_failure_leaves_store {Action : Type} (env : Env Action) (store : Store)
    (r : Request) (t : Time) (e : String) (hm : r.Method = "PUT")
    (hd : reportDate env.now (r.Get "date") = .ok t) (hf : env.ListActions t = .error e) :
    (uploadHandler env store r).resp = ⟨500, "could not get actions: " ++ e ++ "\n"⟩ ∧
      (uploadHandler env store r).trace = [.now, .listActions t] ∧
      (∀ bucket name, Event.newWriter bucket name ∉ (uploadHandler env store r).trace) ∧
      (uploadHandler env store r).store = store ∧
      (uploadHandler env store r).store.get (t.Format ++ ".json")
        = store.get (t.Format ++ ".json") := by
  rw [uploadHandler_fetch_failed env store r t e hm hd hf]
  refine ⟨rfl, rfl, ?_, rfl, rfl⟩
  intro bucket name h
  simp at h

/-- With the registry down nothing is stored. -/
theorem fetch_failure_leaves_store_example :
    (uploadHandler registryDownEnv exampleStore juneRequest).resp
        = ⟨500, "could not get actions: " ++ "connection refused" ++ "\n"⟩ ∧
      (uploadHandler registryDownEnv exampleStore juneRequest).store = exampleStore := by
  have h := fetch_failure_leaves_store registryDownEnv exampleStore juneRequest
    ⟨1685577600, 0, UTC⟩ "connection refused" (by decide) (by decide) (by decide)
  exact ⟨h.1, h.2.2.2.1⟩

/-- Claim C7, as the code has it: on every exit path reached after the writer was opened,
either `Close` was the last thing done before the handler returned (the success path and
the close-error path), or the write failed, and then the handler returned the write
failure without closing the writer. -/
theorem writer_closed_unless_write_failed {Action : Type} (env : Env Action) (store : Store)
    (r : Request) (bucket name : String)
    (h : Event.newWriter bucket name ∈ (uploadHandler env store r).trace) :
    ((uploadHandler env store r).trace.getLast? = some Event.close ∧
        ∀ e, (uploadHandler env store r).resp
          ≠ ⟨500, "could not write file: " ++ e ++ "\n"⟩) ∨
      (Event.close ∉ (uploadHandler env store r).trace ∧
        ∃ e, (uploadHandler env store r).resp = ⟨500, "could not write file: " ++ e ++ "\n"⟩) := by
  obtain ⟨t, actions, b, hm, hd, hf, hj, hcase⟩ := uploadHandler_opened env store r bucket name h
  rcases hcase with ⟨e, hw⟩ | ⟨hw, e, hc⟩ | ⟨hw, hc⟩
  · right
    rw [uploadHandler_write_failed env store r t actions b e hm hd hf hj hw]
    exact ⟨by simp, e, rfl⟩
  · left
    rw [uploadHandler_close_failed env store r t actions b e hm hd hf hj hw hc]
    refine ⟨by simp, ?_⟩
    intro e2 heq
    have hb := congrArg Response.body heq
    exact put_ne_write e e2 hb
  · left
    rw [uploadHandler_published env store r t actions b hm hd hf hj hw hc]
    refine ⟨by simp, ?_⟩
    intro e2 heq
    have hs := congrArg Response.status heq
    simp [StatusOK] at hs

set_option maxRecDepth 10000 in
/-- When the close fails, `Close` was still the last thing done. -/
theorem writer_closed_unless_write_failed_example :
    (uploadHandler closeFailsEnv exampleStore juneRequest).trace.getLast? = some Event.close ∧
      (uploadHandler closeFailsEnv exampleStore juneRequest).resp
        = ⟨500, "could not put file: quota exceeded\n"⟩ := by
  have h := writer_closed_unless_write_failed closeFailsEnv exampleStore juneRequest
    "reports" "2023-06-01.json" (by decide)
  refine ⟨?_, by decide⟩
  rcases h with h | h
  · exact h.1
  · exact absurd (by decide) h.1

set_option maxRecDepth 10000 in
/-- Claim C7 as stated fails on the write-error path: the writer for `2023-06-01.json` is
opened, the write fails, and the handler returns without ever calling `Close`. -/
theorem write_error_leaves_writer_open :
    Event.newWriter "reports" "2023-06-01.json"
        ∈ (uploadHandler writeFailsEnv exampleStore juneRequest).trace ∧
      Event.close ∉ (uploadHandler writeFailsEnv exampleStore juneRequest).trace ∧
      (uploadHandler writeFailsEnv exampleStore juneRequest).resp
        = ⟨500, "could not write file: broken pipe\n"⟩ := by
  decide

/-- Claim C8: for every `PUT` that reaches the upload step, if streaming the serialised
bytes into the writer fails, the handler responds with status 500 and the message
`could not write file: ` followed by the error text, does not call `Close`, commits no
object, and does not emit the public URL. -/
theorem write_failure_not_finalized {Action : Type} (env : Env Action) (store : Store)
    (r : Request) (t : Time) (actions : List Action) (b e : String) (hm : r.Method = "PUT")
    (hd : reportDate env.now (r.Get "date") = .ok t) (hf : env.ListActions t = .ok actions)
    (hj : env.Marshal actions = .ok b)
    (hw : env.Copy store ⟨env.bucketName, t.Format ++ ".json", [⟨AllUsers, RoleReader⟩],
      "application/json"⟩ b = some e) :
    (uploadHandler env store r).resp = ⟨500, "could not write file: " ++ e ++ "\n"⟩ ∧
      Event.close ∉ (uploadHandler env store r).trace ∧
      (uploadHandler env store r).store = store ∧
      (∀ x, (uploadHandler env store r).resp.body ≠ "https://storage.googleapis.com/" ++ x) := by
  rw [uploadHandler_write_failed env store r t actions b e hm hd hf hj hw]
  refine ⟨rfl, by simp, rfl, ?_⟩
  intro x heq
  exact url_ne_write x e heq.symm

/-- A broken pipe while writing: status 500, no `Close`, the store as before. -/
theorem write_failure_not_finalized_example :
    (uploadHandler writeFailsEnv exampleStore juneRequest).resp
        = ⟨500, "could not write file: " ++ "broken pipe" ++ "\n"⟩ ∧
      Event.close ∉ (uploadHandler writeFailsEnv exampleStore juneRequest).trace ∧
      (uploadHandler writeFailsEnv exampleStore juneRequest).store = exampleStore := by
  have h := write_failure_not_finalized writeFailsEnv exampleStore juneRequest
    ⟨1685577600, 0, UTC⟩ [1, 2] exampleBody "broken pipe" (by decide) (by decide) (by decide)
    (by decide) (by decide)
  exact ⟨h.1, h.2.1, h.2.2.1⟩

/-- Claim C9: for every `PUT` whose write succeeded, if closing the writer fails, the
handler responds with status 500 and the message `could not put file: ` followed by the
error text, with no URL and no object committed; and this response differs from the one
for a write error, whatever the two error texts are. -/
theorem close_failure_reported {Action : Type} (env : Env Action) (store : Store)
    (r : Request) (t : Time) (actions : List Action) (b e1 : String) (hm : r.Method = "PUT")
    (hd : reportDate env.now (r.Get "date") = .ok t) (hf : env.ListActions t = .ok actions)
    (hj : env.Marshal actions = .ok b)
    (hw : env.Copy store ⟨env.bucketName, t.Format ++ ".json", [⟨AllUsers, RoleReader⟩],
      "application/json"⟩ b = none)
    (hc : env.Close store ⟨env.bucketName, t.Format ++ ".json", [⟨AllUsers, RoleReader⟩],
      "application/json"⟩ b = some e1) :
    (uploadHandler env store r).resp = ⟨500, "could not put file: " ++ e1 ++ "\n"⟩ ∧
      (∀ x, (uploadHandler env store r).resp.body ≠ "https://storage.googleapis.com/" ++ x) ∧
      (uploadHandler env store r).store = store ∧
      (∀ e2, (uploadHandler env store r).resp.body
        ≠ (httpError ("could not write file: " ++ e2) StatusInternalServerError).body) := by
  rw [uploadHandler_close_failed env store r t actions b e1 hm hd hf hj hw hc]
  refine ⟨rfl, ?_, rfl, ?_⟩
  · intro x heq
    exact url_ne_put x e1 heq.symm
  · intro e2 heq
    exact put_ne_write e1 e2 heq

/-- A quota error at commit time: status 500 with its own message, the store as before. -/
theorem close_failure_reported_example :
    (uploadHandler closeFailsEnv exampleStore juneRequest).resp
        = ⟨500, "could not put file: " ++ "quota exceeded" ++ "\n"⟩ ∧
      (uploadHandler closeFailsEnv exampleStore juneRequest).store = exampleStore := by
  have h := close_failure_reported closeFailsEnv exampleStore juneRequest
    ⟨1685577600, 0, UTC⟩ [1, 2] exampleBody "quota exceeded" (by decide) (by decide) (by decide)
    (by decide) (by decide) (by decide)
  exact ⟨h.1, h.2.2.1⟩

/-- Claim C10: the object key is a function of the report date alone: two runs whose
resolved times fall on the same date, whatever their time of day, clock, registry result
and store, use the same key `d + ".json"`; and when both runs succeed, the second on the
store the first left, the store then holds exactly one object under that key, with the
serialisation of the second run, while every other key holds what it held before the first
run. -/
theorem rerun_overwrites {A1 A2 : Type} (env1 : Env A1) (env2 : Env A2) (store : Store)
    (r1 r2 : Request) (t1 t2 : Time) (a1 : List A1) (a2 : List A2) (b1 b2 : String)
    (hm1 : r1.Method = "PUT") (hm2 : r2.Method = "PUT")
    (hd1 : reportDate env1.now (r1.Get "date") = .ok t1)
    (hd2 : reportDate env2.now (r2.Get "date") = .ok t2)
    (hsame : t1.Date = t2.Date)
    (hf1 : env1.ListActions t1 = .ok a1) (hj1 : env1.Marshal a1 = .ok b1)
    (hw1 : env1.Copy store ⟨env1.bucketName, t1.Format ++ ".json", [⟨AllUsers, RoleReader⟩],
      "application/json"⟩ b1 = none)
    (hc1 : env1.Close store ⟨env1.bucketName, t1.Format ++ ".json", [⟨AllUsers, RoleReader⟩],
      "application/json"⟩ b1 = none)
    (hf2 : env2.ListActions t2 = .ok a2) (hj2 : env2.Marshal a2 = .ok b2)
    (hw2 : env2.Copy (uploadHandler env1 store r1).store
      ⟨env2.bucketName, t2.Format ++ ".json", [⟨AllUsers, RoleReader⟩],
        "application/json"⟩ b2 = none)
    (hc2 : env2.Close (uploadHandler env1 store r1).store
      ⟨env2.bucketName, t2.Format ++ ".json", [⟨AllUsers, RoleReader⟩],
        "application/json"⟩ b2 = none) :
    t2.Format ++ ".json" = t1.Format ++ ".json" ∧
      (uploadHandler env1 store r1).store.get (t1.Format ++ ".json")
        = some ⟨b1, "application/json", [⟨"allUsers", "READER"⟩]⟩ ∧
      (uploadHandler env2 (uploadHandler env1 store r1).store r2).store.count
        (t1.Format ++ ".json") = 1 ∧
      (uploadHandler env2 (uploadHandler env1 store r1).store r2).store.get
        (t1.Format ++ ".json") = some ⟨b2, "application/json", [⟨"allUsers", "READER"⟩]⟩ ∧
      (∀ k, k ≠ t1.Format ++ ".json" →
        (uploadHandler env2 (uploadHandler env1 store r1).store r2).store.get k
          = store.get k) := by
  have hfmt : t2.Format = t1.Format := Time.Format_congr t2 t1 hsame.symm
  rw [uploadHandler_published env2 _ r2 t2 a2 b2 hm2 hd2 hf2 hj2 hw2 hc2,
    uploadHandler_published env1 store r1 t1 a1 b1 hm1 hd1 hf1 hj1 hw1 hc1, hfmt]
  refine ⟨rfl, Store.get_put_same _ _ _, Store.count_put_same _ _ _,
    Store.get_put_same _ _ _, ?_⟩
  intro k hk
  simp only
  rw [Store.get_put_other _ _ _ _ hk, Store.get_put_other _ _ _ _ hk]

set_option maxRecDepth 10000 in
/-- Two runs for 2023-06-01: the second report replaces the first, the report of the day
before stays. -/
theorem rerun_overwrites_example :
    (uploadHandler laterEnv (uploadHandler exampleEnv exampleStore juneRequest).store
        juneRequest).store.count "2023-06-01.json" = 1 ∧
      (uploadHandler laterEnv (uploadHandler exampleEnv exampleStore juneRequest).store
        juneRequest).store.get "2023-06-01.json"
        = some ⟨"[1,2,3]", "application/json", [⟨"allUsers", "READER"⟩]⟩ ∧
      (uploadHandler laterEnv (uploadHandler exampleEnv exampleStore juneRequest).store
        juneRequest).store.get "2023-05-31.json" = exampleStore.get "2023-05-31.json" := by
  have h := rerun_overwrites exampleEnv laterEnv exampleStore juneRequest juneRequest
    ⟨1685577600, 0, UTC⟩ ⟨1685577600, 0, UTC⟩ [1, 2] [1, 2, 3] exampleBody "[1,2,3]"
    (by decide) (by decide) (by decide) (by decide) (by decide) (by decide) (by decide)
    (by decide) (by decide) (by decide) (by decide) (by decide) (by decide)
  have hf : (Time.mk 1685577600 0 UTC).Format = "2023-06-01" := by decide
  rw [hf] at h
  exact ⟨h.2.2.1, h.2.2.2.1, h.2.2.2.2 "2023-05-31.json" (by decide)⟩

end RecregCron
